import Mathlib

/-!
Verification development for the tierflow placement planner and mover.

The Rust sources under `src/` are shallowly embedded here:

* `u64` values are modelled as `Nat`; where the code relies on wrapping or
  saturating semantics (`saturating_add`, `saturating_sub`, and the unchecked
  `total - after_free` subtraction, which wraps modulo 2^64 in release
  builds), the corresponding operation is written out explicitly.
* the percent computation `(used as f64 / total as f64 * 100.0) as u64` is
  modelled by the exact rational floor `used * 100 / total` (with the
  `f64`-cast conventions for a zero divisor made explicit); on every concrete
  input appearing in the witnesses below the two computations agree.
* `HashMap<String, u64>` (the simulated free-space table) is modelled as an
  association list updated in place, mirroring `get_mut`;
* Rust's stable `sort_by` is modelled by `List.insertionSort` over the
  embedded comparator: a stable sort is uniquely determined by its
  comparator, so the two agree element for element.
-/

set_option maxHeartbeats 1000000

namespace Tierflow

/-! ## Comparator infrastructure

Rust comparators return `Ordering`; the embedded comparators mirror the
`cmp(..).then_with(..)` chains of the source. The laws below are what the
sorting and maximum-selection lemmas need.
-/

/-- Comparator on `Nat` mirroring Rust's `u64::cmp`. -/
def natCmp (a b : Nat) : Ordering :=
  if a < b then .lt else if a = b then .eq else .gt

/-- Comparator on `Char` via code points, mirroring byte comparison. -/
def charCmp (a b : Char) : Ordering := natCmp a.toNat b.toNat

/-- Lexicographic comparator on lists, mirroring Rust's slice `Ord`. -/
def listCmp (c : α → α → Ordering) : List α → List α → Ordering
  | [], [] => .eq
  | [], _ :: _ => .lt
  | _ :: _, [] => .gt
  | a :: as', b :: bs' => (c a b).then (listCmp c as' bs')

/-- Comparator on `String` mirroring Rust's `String`/`PathBuf` ordering
(paths are modelled as plain strings; the witnesses only use paths on which
component-wise and character-wise comparison coincide). -/
def strCmp (a b : String) : Ordering := listCmp charCmp a.data b.data

/-- Laws that every comparator used by the planner satisfies. -/
structure CmpLaws (c : α → α → Ordering) : Prop where
  eq_iff : ∀ a b, c a b = .eq ↔ a = b
  symm : ∀ a b, c a b = (c b a).swap
  lt_trans : ∀ {a b d}, c a b = .lt → c b d = .lt → c a d = .lt

/-- Reversed comparator, mirroring `cmp(b, a)` / `Reverse` keys in the source. -/
def cmpRev (c : α → α → Ordering) (a b : α) : Ordering := c b a

/-- Lexicographic pair comparator, mirroring `cmp(..).then_with(..)` chains. -/
def prodCmp (c1 : α → α → Ordering) (c2 : β → β → Ordering)
    (a b : α × β) : Ordering :=
  (c1 a.1 b.1).then (c2 a.2 b.2)

/-- Weaker comparator laws: what sortedness of a stable sort needs. A keyed
comparator (compare the images under a key function) always satisfies them. -/
structure CmpPre (c : α → α → Ordering) : Prop where
  total : ∀ a b, c a b ≠ .gt ∨ c b a ≠ .gt
  le_trans : ∀ {a b d}, c a b ≠ .gt → c b d ≠ .gt → c a d ≠ .gt

/-- Model of Rust's stable `sort_by(cmp)`: a stable sort is determined up to
equality by its comparator, so the stable `List.insertionSort` over the
relation `cmp a b ≠ Greater` produces the same list as the source's sort. -/
def sortBy (c : α → α → Ordering) (l : List α) : List α :=
  List.insertionSort (fun a b => c a b ≠ .gt) l

/-! ## Data model

Embeddings of `FileInfo` (src/file.rs), `Tier` (src/tier.rs),
`PlacementStrategy` (src/strategy.rs), `PlacementDecision`
(src/balancer/decision.rs), `BlockedPlacement` and `PlanningState`
(src/balancer/state.rs).

`Tier` queries the filesystem for capacity through its `disk_ops` handle; the
embedding carries the two sampled quantities (`get_total_space`,
`get_free_space`) as fields, which is exactly the information the planner
reads. `SystemTime` values are modelled as `Nat` (they are only compared).
Paths are modelled as `String`.
-/

/-- Embedding of `FileInfo`: `path`, `size`, `modified` (`accessed` is never
read by the planner or the eviction planner and is omitted). -/
structure FileInfo where
  path : String
  size : Nat
  modified : Nat
deriving DecidableEq, Repr

/-- Embedding of `Tier`, with the sampled capacity values inlined. -/
structure Tier where
  name : String
  priority : Nat
  maxUsagePercent : Option Nat
  minUsagePercent : Option Nat
  totalSpace : Nat
  freeSpace : Nat
deriving DecidableEq, Repr

/-- Model of `(x as f64 / y as f64 * 100.0) as u64`, the percent computation
used throughout the planner: exact rational floor, with the `f64`-cast
conventions for a zero divisor (`0/0` is NaN and casts to `0`, `x/0` for
`x > 0` is `inf` and saturates to `u64::MAX`) made explicit. On every
concrete input in this file the floor agrees with the `f64` value. -/
def pctOf (used total : Nat) : Nat :=
  if total = 0 then (if used = 0 then 0 else 2 ^ 64 - 1)
  else used * 100 / total

/-- Model of the unchecked `u64` subtraction `a - b` (release semantics:
wrap modulo `2^64`; the operands of interest are below `2^64`). -/
def wsub (a b : Nat) : Nat :=
  if b ≤ a then a - b else (2 ^ 64 - (b - a) % 2 ^ 64) % 2 ^ 64

/-- Embedding of `Tier::usage_percent`. -/
def Tier.usagePercent (t : Tier) : Nat :=
  if t.totalSpace = 0 then 0
  else pctOf (wsub t.totalSpace t.freeSpace) t.totalSpace

/-- Embedding of `Tier::can_demote`. -/
def Tier.canDemote (t : Tier) : Bool :=
  match t.minUsagePercent with
  | none => true
  | some m => m ≤ t.usagePercent

/-- Embedding of `StrategyAction` (src/config/strategy.rs). -/
inductive StrategyAction where
  | evaluate
  | stay
deriving DecidableEq, Repr

/-- Embedding of `PlacementStrategy`. The conjunction of its trait-object
conditions is folded into the single predicate `matchesFn`; the planner sets
`context.current_tier_path` before each match, so the predicate receives the
file and the current tier's name (standing for the context). -/
structure Strategy where
  name : String
  priority : Nat
  matchesFn : FileInfo → String → Bool
  preferredTiers : List String
  isRequired : Bool
  action : StrategyAction

/-- Embedding of `PlacementDecision`. -/
inductive PlacementDecision where
  | stay (file : FileInfo) (currentTier strategy : String) (priority : Nat)
  | promote (file : FileInfo) (fromTier toTier strategy : String) (priority : Nat)
  | demote (file : FileInfo) (fromTier toTier strategy : String) (priority : Nat)
deriving DecidableEq, Repr

namespace PlacementDecision

/-- Embedding of `PlacementDecision::sort_priority`. -/
def sortPriority : PlacementDecision → Nat
  | stay _ _ _ _ => 0
  | demote _ _ _ _ p => 1000 + p
  | promote _ _ _ _ p => p

/-- Embedding of `PlacementDecision::file_path`. -/
def filePath : PlacementDecision → String
  | stay f _ _ _ => f.path
  | promote f _ _ _ _ => f.path
  | demote f _ _ _ _ => f.path

/-- Embedding of `PlacementDecision::file_size`. -/
def fileSize : PlacementDecision → Nat
  | stay f _ _ _ => f.size
  | promote f _ _ _ _ => f.size
  | demote f _ _ _ _ => f.size

/-- Embedding of `PlacementDecision::strategy_priority`. -/
def strategyPriority : PlacementDecision → Nat
  | stay _ _ _ p => p
  | promote _ _ _ _ p => p
  | demote _ _ _ _ p => p

/-- Embedding of `PlacementDecision::current_tier`. -/
def currentTierOf : PlacementDecision → String
  | stay _ t _ _ => t
  | promote _ t _ _ _ => t
  | demote _ t _ _ _ => t

/-- Embedding of `PlacementDecision::file` (projected to the record). -/
def file : PlacementDecision → FileInfo
  | stay f _ _ _ => f
  | promote f _ _ _ _ => f
  | demote f _ _ _ _ => f

def isStay : PlacementDecision → Bool
  | stay _ _ _ _ => true
  | _ => false

def isPromote : PlacementDecision → Bool
  | promote _ _ _ _ _ => true
  | _ => false

def isDemote : PlacementDecision → Bool
  | demote _ _ _ _ _ => true
  | _ => false

end PlacementDecision

/-- Embedding of `BlockedPlacement`. -/
structure BlockedPlacement where
  file : FileInfo
  currentTier : String
  desiredTier : String
  strategyName : String
  strategyPriority : Nat
deriving DecidableEq, Repr

/-- Embedding of `PlanWarning` (src/balancer/plan.rs). -/
inductive PlanWarning where
  | insufficientSpace (file strategy : String) (needed available : Nat)
  | requiredStrategyFailed (strategy file reason : String)
deriving DecidableEq, Repr

/-! ## Simulated free-space table

`HashMap<String, u64>` is modelled as an association list. `fsGet?` mirrors
`get(..).copied()`, `fsUpdate` mirrors `get_mut` (update an existing entry in
place, do nothing when the key is absent). The table is seeded with one entry
per tier; with duplicate tier names the `HashMap` would keep the last entry
while the list keeps the first — every theorem about free-space values
therefore assumes distinct tier names.
-/

abbrev FreeSpace := List (String × Nat)

def fsGet? (fs : FreeSpace) (k : String) : Option Nat :=
  (fs.find? (fun p => p.1 == k)).map (·.2)

def fsUpdate : FreeSpace → String → (Nat → Nat) → FreeSpace
  | [], _, _ => []
  | p :: rest, k, f =>
    if p.1 == k then (p.1, f p.2) :: rest else p :: fsUpdate rest k f

/-- Model of `u64::saturating_add`. -/
def satAdd (a b : Nat) : Nat := min (a + b) (2 ^ 64 - 1)

/-- Embedding of `PlanningState::apply_move` (src/balancer/state.rs) and the
identical `EvictionPlanner::apply_move` (src/balancer/eviction.rs):
saturating-add the size to the source tier's free space, saturating-subtract
it from the destination tier's (`u64` saturating-sub on `Nat` is `Nat`
subtraction). -/
def applyMove (fs : FreeSpace) (size : Nat) (srcTier dstTier : String) : FreeSpace :=
  fsUpdate (fsUpdate fs srcTier (fun free => satAdd free size)) dstTier
    (fun free => free - size)

/-- Embedding of `PlanningState::new`: seed the table from the live free
space of every tier. -/
def initFreeSpace (tiers : List Tier) : FreeSpace :=
  tiers.map (fun t => (t.name, t.freeSpace))

/-- Embedding of `PlanningState`. -/
structure PlanningState where
  tierFreeSpace : FreeSpace
  decisions : List PlacementDecision
  warnings : List PlanWarning
  blockedPlacements : List BlockedPlacement

def PlanningState.init (tiers : List Tier) : PlanningState :=
  { tierFreeSpace := initFreeSpace tiers
    decisions := []
    warnings := []
    blockedPlacements := [] }

/-! ## Balancer Pass 2 (src/balancer/mod.rs) -/

/-- One step of Rust's `Iterator::max_by` fold: keep the accumulator only
when it compares strictly greater, so the last of equal maxima wins. -/
def maxStep (c : α → α → Ordering) (acc : Option α) (x : α) : Option α :=
  match acc with
  | none => some x
  | some m => if c m x = .gt then some m else some x

/-- Model of Rust's `Iterator::max_by`, which returns the last of equally
maximum elements. -/
def maxByLast (c : α → α → Ordering) (l : List α) : Option α :=
  l.foldl (maxStep c) none

/-- Comparator used by `Balancer::find_matching_strategy`:
`s1.priority.cmp(&s2.priority).then_with(|| s1.name.cmp(&s2.name))`. -/
def strategyCmp (s1 s2 : Strategy) : Ordering :=
  (natCmp s1.priority s2.priority).then (strCmp s1.name s2.name)

/-- Embedding of `Balancer::find_matching_strategy`: among the strategies
matching the file, take the `max_by` of the priority-then-name comparator. -/
def findMatchingStrategy (strategies : List Strategy) (f : FileInfo)
    (currentTierName : String) : Option Strategy :=
  maxByLast strategyCmp (strategies.filter (fun s => s.matchesFn f currentTierName))

/-- Embedding of `Balancer::can_accept_file` — textually identical to
`EvictionPlanner::can_accept_file` (src/balancer/eviction.rs), so one
definition serves for both. -/
def canAcceptFile (t : Tier) (fileSize simulatedFree : Nat) : Bool :=
  if simulatedFree < fileSize then false
  else
    match t.maxUsagePercent with
    | none => true
    | some maxPercent =>
      let afterFree := simulatedFree - fileSize
      let afterUsed := wsub t.totalSpace afterFree
      let afterPercent := pctOf afterUsed t.totalSpace
      if maxPercent < afterPercent then false else true

/-- Embedding of `EvictionPlanner::find_tier`, also used for the
`self.tiers.iter().find(|t| &t.name == tier_name)` lookups in the balancer. -/
def findTier (tiers : List Tier) (name : String) : Option Tier :=
  tiers.find? (fun t => t.name == name)

/-- Embedding of the recurring
`tier_free_space.get(&tier.name).is_some_and(|&free| can_accept_file(...))`
admission lookup. -/
def fsAccepts (fs : FreeSpace) (t : Tier) (fileSize : Nat) : Bool :=
  match fsGet? fs t.name with
  | some free => canAcceptFile t fileSize free
  | none => false

/-- Embedding of `Balancer::find_ideal_tier_simulated`. -/
def findIdealTierSimulated (tiers : List Tier) (s : Strategy) (f : FileInfo)
    (fs : FreeSpace) : Option Tier :=
  (s.preferredTiers.filterMap (findTier tiers)).find?
    (fun t => fsAccepts fs t f.size)

/-- Embedding of `Balancer::make_decision`. -/
def makeDecision (f : FileInfo) (currentTier idealTier : Tier) (s : Strategy) :
    PlacementDecision :=
  if currentTier.name = idealTier.name then
    .stay f currentTier.name s.name s.priority
  else if idealTier.priority < currentTier.priority then
    .promote f currentTier.name idealTier.name s.name s.priority
  else if currentTier.canDemote then
    .demote f currentTier.name idealTier.name s.name s.priority
  else
    .stay f currentTier.name s.name s.priority

/-- Embedding of `Balancer::plan_file_placement` (one Pass-2 step). -/
def planFilePlacement (tiers : List Tier) (strategies : List Strategy)
    (f : FileInfo) (currentTier : Tier) (st : PlanningState) : PlanningState :=
  match findMatchingStrategy strategies f currentTier.name with
  | some strategy =>
    if strategy.action = .stay then
      { st with
        decisions :=
          st.decisions ++ [.stay f currentTier.name strategy.name strategy.priority] }
    else
      match findIdealTierSimulated tiers strategy f st.tierFreeSpace with
      | some idealTier =>
        let decision := makeDecision f currentTier idealTier strategy
        let st' :=
          if decision.isStay then st
          else
            { st with
              tierFreeSpace :=
                applyMove st.tierFreeSpace f.size currentTier.name idealTier.name }
        { st' with decisions := st'.decisions ++ [decision] }
      | none =>
        let st1 : PlanningState :=
          match strategy.preferredTiers.head? with
          | some firstPreferred =>
            if firstPreferred ≠ currentTier.name then
              { st with
                blockedPlacements :=
                  st.blockedPlacements ++
                    [{ file := f
                       currentTier := currentTier.name
                       desiredTier := firstPreferred
                       strategyName := strategy.name
                       strategyPriority := strategy.priority }] }
            else st
          | none => st
        let st2 : PlanningState :=
          { st1 with
            decisions :=
              st1.decisions ++
                [.stay f currentTier.name strategy.name strategy.priority] }
        if strategy.isRequired then
          { st2 with
            warnings :=
              st2.warnings ++
                [.requiredStrategyFailed strategy.name f.path
                  "No tier with sufficient space"] }
        else st2
  | none =>
    { st with decisions := st.decisions ++ [.stay f currentTier.name "no-match" 0] }

/-- Comparator of `Balancer::sort_files_deterministically`: size descending,
then mtime ascending, then path ascending, then tier name ascending. -/
def fileSortCmp (a b : FileInfo × Tier) : Ordering :=
  (natCmp b.1.size a.1.size).then
    ((natCmp a.1.modified b.1.modified).then
      ((strCmp a.1.path b.1.path).then (strCmp a.2.name b.2.name)))

/-- Embedding of `Balancer::sort_files_deterministically`. -/
def sortFilesDeterministically (files : List (FileInfo × Tier)) :
    List (FileInfo × Tier) :=
  sortBy fileSortCmp files

/-- Pass 2 of `Balancer::plan_rebalance`: fold `plan_file_placement` over the
deterministically sorted file list, starting from the freshly seeded state. -/
def planAllFiles (tiers : List Tier) (strategies : List Strategy)
    (files : List (FileInfo × Tier)) : PlanningState :=
  (sortFilesDeterministically files).foldl
    (fun st ft => planFilePlacement tiers strategies ft.1 ft.2 st)
    (PlanningState.init tiers)

/-! ## EvictionPlanner (src/balancer/eviction.rs) -/

/-- One step of Rust's `Iterator::min_by_key` fold: replace the accumulator
only on a strictly smaller key, so the first of equal minima wins. -/
def minStep (acc : Option Tier) (t : Tier) : Option Tier :=
  match acc with
  | none => some t
  | some m => if t.priority < m.priority then some t else some m

/-- Model of `Iterator::min_by_key` on tier priority: the first of equally
minimum elements is returned. -/
def minByPriorityFirst (ts : List Tier) : Option Tier :=
  ts.foldl minStep none

/-- Embedding of `EvictionPlanner::find_fallback_tier`: take the slower tier
with the minimum priority number, then test that single tier's admission. -/
def findFallbackTier (tiers : List Tier) (currentTier : String)
    (fs : FreeSpace) (fileSize : Nat) : Option Tier :=
  match findTier tiers currentTier with
  | none => none
  | some cur =>
    match minByPriorityFirst (tiers.filter (fun t => cur.priority < t.priority)) with
    | none => none
    | some t => if fsAccepts fs t fileSize then some t else none

/-- Embedding of `EvictionPlanner::find_eviction_candidates`: the indices,
strategy priorities and file sizes of the decisions currently Staying on the
tier, in decision-list order. -/
def findEvictionCandidates (tierName : String)
    (ds : List PlacementDecision) : List (Nat × Nat × Nat) :=
  (ds.enum.filter
      (fun p => p.2.isStay && (p.2.currentTierOf == tierName))).map
    (fun p => (p.1, p.2.strategyPriority, p.2.fileSize))

/-- Modified timestamp of `decisions[idx].file()`, used by the Pass-3b
candidate comparator (the index is always in range there). -/
def decModified (ds : List PlacementDecision) (idx : Nat) : Nat :=
  ((ds.get? idx).map (fun d => d.file.modified)).getD 0

/-- Comparator of `EvictionPlanner::sort_eviction_candidates`: strategy
priority ascending, then file mtime ascending, then size descending. -/
def candCmp (ds : List PlacementDecision) (c1 c2 : Nat × Nat × Nat) : Ordering :=
  (natCmp c1.2.1 c2.2.1).then
    ((natCmp (decModified ds c1.1) (decModified ds c2.1)).then
      (natCmp c2.2.2 c1.2.2))

/-- Embedding of `EvictionPlanner::sort_eviction_candidates` (called only by
Pass 3b in the source). -/
def sortEvictionCandidates (ds : List PlacementDecision)
    (cands : List (Nat × Nat × Nat)) : List (Nat × Nat × Nat) :=
  sortBy (candCmp ds) cands

/-- Embedding of `EvictionPlanner::calculate_needed_space`. -/
def calculateNeededSpace (blockedList : List BlockedPlacement) : Nat :=
  (blockedList.map (fun b => b.file.size)).sum

/-- Greedy loop body of `EvictionPlanner::select_files_to_evict`: walk the
candidates in order, stop once the freed size reaches the needed size, and
pick every candidate whose priority is below the bound. -/
def selectLoop (maxBlockedPriority neededSpace : Nat) :
    List (Nat × Nat × Nat) → Nat → List Nat
  | [], _ => []
  | (idx, p, sz) :: rest, freed =>
    if neededSpace ≤ freed then []
    else if p < maxBlockedPriority then
      idx :: selectLoop maxBlockedPriority neededSpace rest (freed + sz)
    else selectLoop maxBlockedPriority neededSpace rest freed

/-- Embedding of `EvictionPlanner::select_files_to_evict`. -/
def selectFilesToEvict (candidates : List (Nat × Nat × Nat))
    (neededSpace : Nat) (blockedList : List BlockedPlacement) : List Nat :=
  let maxBlockedPriority :=
    (blockedList.map (fun b => b.strategyPriority)).foldl Nat.max 0
  selectLoop maxBlockedPriority neededSpace candidates 0

/-- Embedding of `EvictionPlanner::apply_evictions`: iterate the picked
indices in reverse, rewriting each still-Stay decision into a Demote to its
fallback tier and applying the simulated move. -/
def applyEvictions (tiers : List Tier) (toEvict : List Nat)
    (ds : List PlacementDecision) (fs : FreeSpace) :
    List PlacementDecision × FreeSpace :=
  toEvict.reverse.foldl
    (fun st evictIdx =>
      match st.1.get? evictIdx with
      | some (.stay f curT strat prio) =>
        match findFallbackTier tiers curT st.2 f.size with
        | some fallback =>
          (st.1.set evictIdx (.demote f curT fallback.name strat prio),
           applyMove st.2 f.size curT fallback.name)
        | none => st
      | _ => st)
    (ds, fs)

/-- Embedding of `EvictionPlanner::replan_blocked_files`. -/
def replanBlockedFiles (tiers : List Tier)
    (blockedList : List BlockedPlacement) (ds : List PlacementDecision)
    (fs : FreeSpace) : List PlacementDecision × FreeSpace :=
  blockedList.foldl
    (fun st b =>
      match findTier tiers b.desiredTier, findTier tiers b.currentTier with
      | some target, some cur =>
        if fsAccepts st.2 target b.file.size then
          match st.1.findIdx? (fun d => d.filePath == b.file.path) with
          | some idx =>
            let d :=
              if target.priority < cur.priority then
                PlacementDecision.promote b.file b.currentTier b.desiredTier
                  b.strategyName b.strategyPriority
              else
                PlacementDecision.demote b.file b.currentTier b.desiredTier
                  b.strategyName b.strategyPriority
            (st.1.set idx d,
             applyMove st.2 b.file.size b.currentTier b.desiredTier)
          | none => st
        else st
      | _, _ => st)
    (ds, fs)

/-- Comparator of `blocked_list.sort_by_key(|b| Reverse(b.strategy_priority))`:
strategy priority descending. -/
def blockedCmp (b1 b2 : BlockedPlacement) : Ordering :=
  natCmp b2.strategyPriority b1.strategyPriority

/-- Embedding of `EvictionPlanner::evict_from_tier`. -/
def evictFromTier (tiers : List Tier) (tierName : String)
    (blockedList : List BlockedPlacement) (ds : List PlacementDecision)
    (fs : FreeSpace) : List PlacementDecision × FreeSpace :=
  let sortedBlocked := sortBy blockedCmp blockedList
  let candidates := findEvictionCandidates tierName ds
  let neededSpace := calculateNeededSpace sortedBlocked
  let toEvict := selectFilesToEvict candidates neededSpace sortedBlocked
  let st := applyEvictions tiers toEvict ds fs
  replanBlockedFiles tiers sortedBlocked st.1 st.2

/-- Keys of `EvictionPlanner::group_by_tier` in first-occurrence order. The
source groups into a `HashMap` and iterates it in an unspecified order; the
embedding fixes the first-occurrence order, one of the orders the `HashMap`
may produce. Per-key lists keep insertion order, as `entry().or_default()
.push` does. -/
def groupKeys (bs : List BlockedPlacement) : List String :=
  bs.foldl
    (fun ks b => if ks.contains b.desiredTier then ks else ks ++ [b.desiredTier])
    []

def groupOf (bs : List BlockedPlacement) (k : String) : List BlockedPlacement :=
  bs.filter (fun b => b.desiredTier == k)

/-- Embedding of `EvictionPlanner::evict_to_make_space` (Pass 3a). -/
def evictToMakeSpace (tiers : List Tier) (ds : List PlacementDecision)
    (blocked : List BlockedPlacement) (fs : FreeSpace) :
    List PlacementDecision × FreeSpace :=
  if blocked.isEmpty then (ds, fs)
  else
    (groupKeys blocked).foldl
      (fun st k => evictFromTier tiers k (groupOf blocked k) st.1 st.2)
      (ds, fs)

/-- Loop of `EvictionPlanner::evict_to_target_usage`: walk the sorted
candidates, stopping as soon as simulated usage is at or below the target. -/
def evictLoopB (tiers : List Tier) (tierName : String) (total targetUsed : Nat) :
    List (Nat × Nat × Nat) → List PlacementDecision → FreeSpace →
    List PlacementDecision × FreeSpace
  | [], ds, fs => (ds, fs)
  | (idx, _, _) :: rest, ds, fs =>
    let simulatedFree := (fsGet? fs tierName).getD 0
    let currentUsed := total - simulatedFree
    if currentUsed ≤ targetUsed then (ds, fs)
    else
      match ds.get? idx with
      | some (.stay f curT strat prio) =>
        match findFallbackTier tiers curT fs f.size with
        | some fallback =>
          evictLoopB tiers tierName total targetUsed rest
            (ds.set idx (.demote f curT fallback.name strat prio))
            (applyMove fs f.size curT fallback.name)
        | none => evictLoopB tiers tierName total targetUsed rest ds fs
      | _ => evictLoopB tiers tierName total targetUsed rest ds fs

/-- Embedding of `EvictionPlanner::evict_to_target_usage`. The target used
size `(total as f64 * target as f64 / 100.0) as u64` is modelled as the
rational floor `total * target / 100`. -/
def evictToTargetUsage (tiers : List Tier) (tierName : String)
    (targetPercent : Nat) (ds : List PlacementDecision) (fs : FreeSpace) :
    List PlacementDecision × FreeSpace :=
  match findTier tiers tierName with
  | none => (ds, fs)
  | some t =>
    let total := t.totalSpace
    let targetUsed := total * targetPercent / 100
    let candidates := sortEvictionCandidates ds (findEvictionCandidates tierName ds)
    evictLoopB tiers tierName total targetUsed candidates ds fs

/-- Embedding of `EvictionPlanner::evict_excess_usage` (Pass 3b). -/
def evictExcessUsage (tiers : List Tier) (ds : List PlacementDecision)
    (fs : FreeSpace) : List PlacementDecision × FreeSpace :=
  tiers.foldl
    (fun st t =>
      match t.maxUsagePercent with
      | none => st
      | some maxPercent =>
        let total := t.totalSpace
        let simulatedFree := (fsGet? st.2 t.name).getD 0
        let simulatedUsed := total - simulatedFree
        let simulatedPercent := if 0 < total then pctOf simulatedUsed total else 0
        if maxPercent < simulatedPercent then
          evictToTargetUsage tiers t.name maxPercent st.1 st.2
        else st)
    (ds, fs)

/-! ## The full planning pipeline (`Balancer::plan_rebalance`) -/

/-- Comparator of the final decision sort in `plan_rebalance`:
`d2.sort_priority().cmp(&d1.sort_priority()).then_with(|| d1.file_path()
.cmp(d2.file_path()))`. -/
def decisionCmp (d1 d2 : PlacementDecision) : Ordering :=
  (natCmp d2.sortPriority d1.sortPriority).then (strCmp d1.filePath d2.filePath)

/-- Embedding of `Balancer::plan_rebalance` from the scanned file map
onwards: Pass 2, Pass 3a (when any placement is blocked), Pass 3b, final
sort. The input list stands for the deduplicated `scan_all_tiers` map
(`FileInfo` equality is path equality, so the map holds at most one entry
per path); the returned pair is the decision list and the final simulated
free-space table. -/
def planRebalanceCore (tiers : List Tier) (strategies : List Strategy)
    (files : List (FileInfo × Tier)) : List PlacementDecision × FreeSpace :=
  let st := planAllFiles tiers strategies files
  let st1 :=
    if st.blockedPlacements.isEmpty then (st.decisions, st.tierFreeSpace)
    else evictToMakeSpace tiers st.decisions st.blockedPlacements st.tierFreeSpace
  let st2 := evictExcessUsage tiers st1.1 st1.2
  (sortBy decisionCmp st2.1, st2.2)

/-- The decision list emitted by `plan_rebalance`. -/
def planRebalance (tiers : List Tier) (strategies : List Strategy)
    (files : List (FileInfo × Tier)) : List PlacementDecision :=
  (planRebalanceCore tiers strategies files).1

/-! ## Spec-side reference definitions

For the refinement claims, a second definition written from the spec's words
(clearly named `spec...`), to be compared against the embedding of the
source.
-/

/-- Reference admission test from the spec (§4.1): `simulated_free >= size`
and, when `max_usage_percent` is set, the projected percent
`(total − (simulated_free − size)) / total * 100` (computed with true
integer subtraction, then divided and truncated) is at most the ceiling. -/
def specCanAccept (t : Tier) (fileSize simulatedFree : Nat) : Bool :=
  decide (fileSize ≤ simulatedFree) &&
    (match t.maxUsagePercent with
     | none => true
     | some maxPercent =>
       decide
         (((t.totalSpace : Int) - ((simulatedFree : Int) - (fileSize : Int)))
             * 100 / (t.totalSpace : Int) ≤ (maxPercent : Int)))

/-- Reference strategy selection from the spec (§4.3): among matching
strategies, greatest priority, ties broken by the name that is first in
ascending lexicographic order (the least name). -/
def specSelectStrategy (strategies : List Strategy) (f : FileInfo)
    (currentTierName : String) : Option Strategy :=
  maxByLast (fun s1 s2 => (natCmp s1.priority s2.priority).then (strCmp s2.name s1.name))
    (strategies.filter (fun s => s.matchesFn f currentTierName))

/-- Reference Pass-3a candidate pick from the spec (§4.4): keep the
candidates with priority strictly below the blocked maximum, sort them
ascending by strategy priority, then greedily pick until the freed size
reaches the needed size. -/
def specSelectFilesToEvict (candidates : List (Nat × Nat × Nat))
    (neededSpace : Nat) (blockedList : List BlockedPlacement) : List Nat :=
  let maxBlockedPriority :=
    (blockedList.map (fun b => b.strategyPriority)).foldl Nat.max 0
  let eligible := candidates.filter (fun c => c.2.1 < maxBlockedPriority)
  let sorted := sortBy (fun c1 c2 => natCmp c1.2.1 c2.2.1) eligible
  selectLoop (maxBlockedPriority + 1) neededSpace sorted 0

/-- Reference fallback-tier selection from the spec (§4.5): among tiers with
priority strictly greater than the current tier's, the one with the smallest
priority number that can accept the file. -/
def specFallbackTier (tiers : List Tier) (currentTier : String)
    (fs : FreeSpace) (fileSize : Nat) : Option Tier :=
  match findTier tiers currentTier with
  | none => none
  | some cur =>
    minByPriorityFirst
      ((tiers.filter (fun t => cur.priority < t.priority)).filter
        (fun t => fsAccepts fs t fileSize))

/-- Greedy prefix in list order: pick every candidate index until the freed
size reaches the needed size (what `select_files_to_evict` computes once the
priority filter is pulled out of its loop). -/
def greedyPrefix (neededSpace : Nat) : List (Nat × Nat × Nat) → Nat → List Nat
  | [], _ => []
  | (idx, _, sz) :: rest, freed =>
    if neededSpace ≤ freed then []
    else idx :: greedyPrefix neededSpace rest (freed + sz)

/-! ## Concrete fixtures used by counterexamples and witnesses -/

/-- Two always-matching strategies with equal priority and names "a" < "b". -/
def strategyA : Strategy :=
  { name := "a", priority := 5, matchesFn := fun _ _ => true,
    preferredTiers := ["x"], isRequired := false, action := .evaluate }

def strategyB : Strategy :=
  { name := "b", priority := 5, matchesFn := fun _ _ => true,
    preferredTiers := ["x"], isRequired := false, action := .evaluate }

def probeFile : FileInfo := { path := "/t/file", size := 1, modified := 0 }

/-- Blocked placement with strategy priority 10 needing 400 bytes. -/
def blocked5 : List BlockedPlacement :=
  [{ file := { path := "/s/g", size := 400, modified := 0 },
     currentTier := "storage", desiredTier := "cache",
     strategyName := "hot", strategyPriority := 10 }]

/-- Three tiers for the fallback counterexample: the nearest slower tier `m`
has no free space, the slowest tier `s` has plenty. -/
def tierFall1 : Tier :=
  { name := "a", priority := 1, maxUsagePercent := none,
    minUsagePercent := none, totalSpace := 1000, freeSpace := 1000 }

def tierFall2 : Tier :=
  { name := "m", priority := 2, maxUsagePercent := none,
    minUsagePercent := none, totalSpace := 1000, freeSpace := 0 }

def tierFall3 : Tier :=
  { name := "s", priority := 3, maxUsagePercent := none,
    minUsagePercent := none, totalSpace := 10000, freeSpace := 10000 }

def fsFallFull : FreeSpace := [("a", 1000), ("m", 0), ("s", 10000)]

def fsFallRoom : FreeSpace := [("a", 1000), ("m", 1000), ("s", 10000)]

/-- Tier with `max_usage_percent = 80` and total 100 for the admission
underflow counterexample. -/
def tierWrap : Tier :=
  { name := "t", priority := 1, maxUsagePercent := some 80,
    minUsagePercent := none, totalSpace := 100, freeSpace := 50 }

/-- Empty tier with total 1000 and `max_usage_percent = 80` for the capacity
boundary counterexample. -/
def tierCap : Tier :=
  { name := "c", priority := 1, maxUsagePercent := some 80,
    minUsagePercent := none, totalSpace := 1000, freeSpace := 1000 }

/-- Closure of a decision predicate under the fallback-demotion rewrite. -/
def FallbackClosed (tiers : List Tier) (Pd : PlacementDecision → Prop) : Prop :=
  ∀ (f : FileInfo) (curT strat : String) (prio : Nat) (t : Tier)
    (fs : FreeSpace),
    findFallbackTier tiers curT fs f.size = some t →
    Pd (.stay f curT strat prio) →
    Pd (.demote f curT t.name strat prio)

/-- Closure of a decision predicate under the replan rewrite, relative to an
invariant `Q` of blocked placements. -/
def ReplanClosed (tiers : List Tier) (Pd : PlacementDecision → Prop)
    (Q : BlockedPlacement → Prop) : Prop :=
  ∀ (b : BlockedPlacement) (target cur : Tier),
    Q b →
    findTier tiers b.desiredTier = some target →
    findTier tiers b.currentTier = some cur →
    Pd (if target.priority < cur.priority then
          .promote b.file b.currentTier b.desiredTier b.strategyName
            b.strategyPriority
        else
          .demote b.file b.currentTier b.desiredTier b.strategyName
            b.strategyPriority)

/-! ## Tier-priority consistency predicates (claim C3) -/

/-- Tier priorities are pairwise distinct. -/
def PrioInj (tiers : List Tier) : Prop :=
  ∀ t1 ∈ tiers, ∀ t2 ∈ tiers, t1.priority = t2.priority → t1 = t2

/-- Promote strictly decreases the priority number; Demote does not decrease
it (equality possible when two tiers share a priority number). -/
def TierOrderOk (tiers : List Tier) : PlacementDecision → Prop
  | .stay _ _ _ _ => True
  | .promote _ fr t2 _ _ =>
    ∃ tf tt, findTier tiers fr = some tf ∧ findTier tiers t2 = some tt ∧
      tt.priority < tf.priority
  | .demote _ fr t2 _ _ =>
    ∃ tf tt, findTier tiers fr = some tf ∧ findTier tiers t2 = some tt ∧
      tf.priority ≤ tt.priority

/-- Promote strictly decreases and Demote strictly increases the priority
number. -/
def TierOrderStrict (tiers : List Tier) : PlacementDecision → Prop
  | .stay _ _ _ _ => True
  | .promote _ fr t2 _ _ =>
    ∃ tf tt, findTier tiers fr = some tf ∧ findTier tiers t2 = some tt ∧
      tt.priority < tf.priority
  | .demote _ fr t2 _ _ =>
    ∃ tf tt, findTier tiers fr = some tf ∧ findTier tiers t2 = some tt ∧
      tf.priority < tt.priority

/-- Combined C3 decision invariant. -/
def C3Pred (tiers : List Tier) (d : PlacementDecision) : Prop :=
  TierOrderOk tiers d ∧ (PrioInj tiers → TierOrderStrict tiers d)

/-- Blocked-placement invariant established by Pass 2: the desired tier is
never the current tier (the source pushes a `BlockedPlacement` only when
`first_preferred != current_tier.name`). -/
def BlockedNe (b : BlockedPlacement) : Prop := b.desiredTier ≠ b.currentTier

/-! ## Claim C3 — tier-priority consistency -/

/-- Two tiers with different names but the same priority number. -/
def tierEqA : Tier :=
  { name := "a", priority := 1, maxUsagePercent := none,
    minUsagePercent := none, totalSpace := 1000, freeSpace := 1000 }

def tierEqB : Tier :=
  { name := "b", priority := 1, maxUsagePercent := none,
    minUsagePercent := none, totalSpace := 1000, freeSpace := 1000 }

def fileOnA : FileInfo := { path := "/a/f", size := 10, modified := 0 }

/-- Always-matching strategy preferring tier `"b"`. -/
def strategyToB : Strategy :=
  { name := "s", priority := 5, matchesFn := fun _ _ => true,
    preferredTiers := ["b"], isRequired := false, action := .evaluate }

def tierFastC8 : Tier :=
  { name := "a", priority := 1, maxUsagePercent := none,
    minUsagePercent := none, totalSpace := 10000, freeSpace := 10000 }

def tierSlowC8 : Tier :=
  { name := "b", priority := 10, maxUsagePercent := none,
    minUsagePercent := none, totalSpace := 10000, freeSpace := 10000 }

def fileHot : FileInfo := { path := "/b/f1", size := 100, modified := 0 }

def fileCold : FileInfo := { path := "/a/f2", size := 50, modified := 0 }

/-- Strategy with priority 1500 (≥ 1000) promoting `/b/f1` to tier `"a"`. -/
def strategyHot : Strategy :=
  { name := "hot", priority := 1500, matchesFn := fun f _ => f.path == "/b/f1",
    preferredTiers := ["a"], isRequired := false, action := .evaluate }

/-- Strategy with priority 0 demoting `/a/f2` to tier `"b"`. -/
def strategyCold : Strategy :=
  { name := "cold", priority := 0, matchesFn := fun f _ => f.path == "/a/f2",
    preferredTiers := ["b"], isRequired := false, action := .evaluate }

/-! ## Claim C10 — simulated free space vs. total space -/

/-- Per-decision contribution to the stay budget of tier `n`: the file's
size when the decision Stays on `n`, else 0. -/
def stayContrib (n : String) (d : PlacementDecision) : Nat :=
  if d.isStay = true ∧ n = d.currentTierOf then d.fileSize else 0

/-- Bytes of files whose decision currently Stays on tier `n` — the bytes
the eviction passes may still move off the tier. -/
def stayBudget (n : String) (ds : List PlacementDecision) : Nat :=
  (ds.map (stayContrib n)).sum

/-- Bytes of the scanned files residing on tier `n`. -/
def sumSizes (n : String) (files : List (FileInfo × Tier)) : Nat :=
  (files.map (fun ft => if n = ft.2.name then ft.1.size else 0)).sum

/-- The accounting invariant the planner maintains: each tier's simulated
free space plus its remaining stay budget fits in its total space. -/
def FsBudgetInv (tiers : List Tier) (ds : List PlacementDecision)
    (fs : FreeSpace) : Prop :=
  ∀ t ∈ tiers, ∀ v, fsGet? fs t.name = some v →
    v + stayBudget t.name ds ≤ t.totalSpace

def tierOverA : Tier :=
  { name := "a", priority := 1, maxUsagePercent := none,
    minUsagePercent := none, totalSpace := 100, freeSpace := 50 }

def tierOverB : Tier :=
  { name := "b", priority := 10, maxUsagePercent := none,
    minUsagePercent := none, totalSpace := 10000, freeSpace := 10000 }

/-- A scanned file larger than its tier's total space: live sampling and the
scan need not be mutually consistent. -/
def fileOver : FileInfo := { path := "/a/f", size := 200, modified := 0 }

def strategyOver : Strategy :=
  { name := "s", priority := 5, matchesFn := fun _ _ => true,
    preferredTiers := ["b"], isRequired := false, action := .evaluate }

def tierConsA : Tier :=
  { name := "a", priority := 1, maxUsagePercent := none,
    minUsagePercent := none, totalSpace := 1000, freeSpace := 900 }

def tierConsB : Tier :=
  { name := "b", priority := 10, maxUsagePercent := none,
    minUsagePercent := none, totalSpace := 1000, freeSpace := 1000 }

def fileCons : FileInfo := { path := "/a/f", size := 100, modified := 0 }

def strategyCons : Strategy :=
  { name := "s", priority := 5, matchesFn := fun _ _ => true,
    preferredTiers := ["b"], isRequired := false, action := .evaluate }

/-! ## Claim C2 — failure atomicity of `RsyncMover::move_file`

Embedding of `RsyncMover::move_file` (src/mover/mod.rs, the module compiled
via `pub mod mover;`; src/mover.rs differs only by extra in-use checks and
logging). The filesystem facts the function reads and writes are carried in
`FsState`; every fallible or external operation's outcome is an input in
`MoveEnv`. Conventions: `FsState` tracks only the mover's own mutations
(external concurrent changes surface solely through the env-driven check
outcomes, e.g. `srcChanged`, `dstStillThere`); a failed `fs::remove_file` or
`fs::rename` leaves its operands in place; the `let _ = fs::remove_file`
cleanup calls are modelled as unconditional unlinks; the Step-9 empty-parent
directory sweep touches no modelled state. The staging sibling
`destination.with_extension("….partial")` is the `tmpExists` field. -/

/-- Filesystem facts `move_file` reads and writes: existence, size and mtime
of the source, existence of the destination and of its staging sibling. -/
structure FsState where
  srcExists : Bool
  srcSize : Nat
  srcMtime : Nat
  dstExists : Bool
  tmpExists : Bool
deriving DecidableEq, Repr

/-- Outcomes of every fallible or external operation `move_file` performs,
in program order. `Option Nat` models a checksum call: `none` is an error,
`some h` the returned hash. -/
structure MoveEnv where
  metaSrcOk : Bool
  metaDstOk : Bool
  dstSize : Nat
  hashSrcPre : Option Nat
  hashDstPre : Option Nat
  removeSrcPreOk : Bool
  renameBackupOk : Bool
  createDirOk : Bool
  rsyncSpawnOk : Bool
  rsyncExitOk : Bool
  rsyncLeftTmp : Bool
  metaSrcAfterOk : Bool
  metaTmpOk : Bool
  tmpSize : Nat
  hashSrc : Option Nat
  hashTmp : Option Nat
  metaSrcRecheckOk : Bool
  srcChanged : Bool
  hashTmpFinal : Option Nat
  renameFinalOk : Bool
  removeSrcOk : Bool
  dstStillThere : Bool
deriving DecidableEq, Repr

/-- The error surfaced by each `return Err(...)` site of `move_file`, one
constructor per site (metadata reads of the pre-existing-destination branch
share one, as do the two post-copy metadata reads and the two Step-4 hash
calls, which are indistinguishable to the caller). -/
inductive MoveError where
  | sourceNotFound
  | metadataFailed
  | hashFailed
  | removeSourceFailed
  | renameBackupFailed
  | createDirFailed
  | rsyncSpawnFailed
  | rsyncExitFailure
  | tempMissing
  | metadataAfterFailed
  | sizeMismatch
  | hashAfterFailed
  | checksumMismatch
  | metadataRecheckFailed
  | sourceChanged
  | finalHashFailed
  | finalChecksumMismatch
  | renameFinalFailed
  | removeSourceAfterFailed
  | destinationDisappeared
deriving DecidableEq, Repr

/-- Steps 6–10 of `move_file`: the final integrity re-check of the staging
file against the source checksum `hs`, the atomic rename, the source
removal, and the destination re-check. Called with the post-copy state
(staging file present). -/
def finalStage (env : MoveEnv) (hs : Nat) (s : FsState) :
    Option MoveError × FsState :=
  match env.hashTmpFinal with
  | none => (some .finalHashFailed, s)
  | some hf =>
    if hf ≠ hs then
      (some .finalChecksumMismatch, { s with tmpExists := false })
    else if env.renameFinalOk = false then
      (some .renameFinalFailed, s)
    else if env.removeSrcOk = false then
      (some .removeSourceAfterFailed,
        { s with tmpExists := false, dstExists := true })
    else if env.dstStillThere = false then
      (some .destinationDisappeared,
        { s with
            tmpExists := false
            dstExists := true
            srcExists := false })
    else
      (none,
        { s with
            tmpExists := false
            dstExists := true
            srcExists := false })

/-- Steps 4–5 of `move_file`: checksum both files, compare, re-check the
source metadata, then hand over to `finalStage`. Called with the post-copy
state (staging file present). -/
def hashStage (env : MoveEnv) (s : FsState) : Option MoveError × FsState :=
  match env.hashSrc, env.hashTmp with
  | none, _ => (some .hashAfterFailed, s)
  | some _, none => (some .hashAfterFailed, s)
  | some hs, some ht =>
    if hs ≠ ht then (some .checksumMismatch, { s with tmpExists := false })
    else if env.metaSrcRecheckOk = false then
      (some .metadataRecheckFailed, s)
    else if env.srcChanged = true then
      (some .sourceChanged, { s with tmpExists := false })
    else finalStage env hs s

/-- Steps 1–3 of `move_file` (from "ensure destination directory exists"):
rsync to the staging sibling, existence and size verification, then the
checksum ladder. -/
def copyStage (env : MoveEnv) (s : FsState) : Option MoveError × FsState :=
  if env.createDirOk = false then (some .createDirFailed, s)
  else if env.rsyncSpawnOk = false then (some .rsyncSpawnFailed, s)
  else if env.rsyncExitOk = false then
    (some .rsyncExitFailure, { s with tmpExists := env.rsyncLeftTmp })
  else if env.rsyncLeftTmp = false then
    (some .tempMissing, { s with tmpExists := false })
  else if env.metaSrcAfterOk = false then
    (some .metadataAfterFailed, { s with tmpExists := true })
  else if env.metaTmpOk = false then
    (some .metadataAfterFailed, { s with tmpExists := true })
  else if s.srcSize ≠ env.tmpSize then
    (some .sizeMismatch, { s with tmpExists := false })
  else hashStage env { s with tmpExists := true }

/-- Embedding of `RsyncMover::move_file`: the source-existence check, the
pre-existing-destination branch (identical → remove source and succeed;
different → rename destination to a backup), then `copyStage`. -/
def moveFile (env : MoveEnv) (s : FsState) : Option MoveError × FsState :=
  if s.srcExists = false then (some .sourceNotFound, s)
  else if s.dstExists = true then
    if env.metaSrcOk = false then (some .metadataFailed, s)
    else if env.metaDstOk = false then (some .metadataFailed, s)
    else if s.srcSize = env.dstSize then
      match env.hashSrcPre, env.hashDstPre with
      | none, _ => (some .hashFailed, s)
      | some _, none => (some .hashFailed, s)
      | some hs, some hd =>
        if hs = hd then
          if env.removeSrcPreOk = false then (some .removeSourceFailed, s)
          else (none, { s with srcExists := false })
        else
          if env.renameBackupOk = false then (some .renameBackupFailed, s)
          else copyStage env { s with dstExists := false }
    else
      if env.renameBackupOk = false then (some .renameBackupFailed, s)
      else copyStage env { s with dstExists := false }
  else copyStage env s

def s0C2 : FsState :=
  { srcExists := true, srcSize := 100, srcMtime := 7, dstExists := false,
    tmpExists := false }

/-- Environment in which every operation succeeds and every verification
passes. -/
def envAllOk : MoveEnv :=
  { metaSrcOk := true, metaDstOk := true, dstSize := 0,
    hashSrcPre := some 0, hashDstPre := some 0, removeSrcPreOk := true,
    renameBackupOk := true, createDirOk := true, rsyncSpawnOk := true,
    rsyncExitOk := true, rsyncLeftTmp := true, metaSrcAfterOk := true,
    metaTmpOk := true, tmpSize := 100, hashSrc := some 5, hashTmp := some 5,
    metaSrcRecheckOk := true, srcChanged := false, hashTmpFinal := some 5,
    renameFinalOk := true, removeSrcOk := true, dstStillThere := true }

/-- rsync exits non-zero after creating the staging file. -/
def envRsyncFail : MoveEnv := { envAllOk with rsyncExitOk := false }

/-- Every step succeeds but the Step-10 destination re-check fails. -/
def envDstGone : MoveEnv := { envAllOk with dstStillThere := false }

/-- Step-4 checksums disagree. -/
def envMismatch : MoveEnv := { envAllOk with hashTmp := some 6 }

/-! ## Theorems -/

theorem then_eq_lt (o1 o2 : Ordering) :
    o1.then o2 = .lt ↔ o1 = .lt ∨ (o1 = .eq ∧ o2 = .lt) := by
  cases o1 <;> cases o2 <;> simp [Ordering.then]

theorem then_eq_eq (o1 o2 : Ordering) :
    o1.then o2 = .eq ↔ o1 = .eq ∧ o2 = .eq := by
  cases o1 <;> cases o2 <;> simp [Ordering.then]

theorem then_eq_gt (o1 o2 : Ordering) :
    o1.then o2 = .gt ↔ o1 = .gt ∨ (o1 = .eq ∧ o2 = .gt) := by
  cases o1 <;> cases o2 <;> simp [Ordering.then]

theorem then_swap (o1 o2 : Ordering) :
    (o1.then o2).swap = o1.swap.then o2.swap := by
  cases o1 <;> cases o2 <;> rfl

theorem natCmp_eq_lt {a b : Nat} : natCmp a b = .lt ↔ a < b := by
  simp only [natCmp]
  split <;> rename_i h
  · simpa using h
  · split <;> simp <;> omega

theorem natCmp_eq_eq {a b : Nat} : natCmp a b = .eq ↔ a = b := by
  simp only [natCmp]
  split <;> rename_i h
  · simp; omega
  · split <;> simp <;> omega

theorem natCmp_laws : CmpLaws natCmp := by
  refine ⟨fun a b => natCmp_eq_eq, fun a b => ?_, fun {a b d} h1 h2 => ?_⟩
  · simp only [natCmp]
    rcases Nat.lt_trichotomy a b with h | h | h
    · rw [if_pos h, if_neg (by omega), if_neg (by omega)]; rfl
    · rw [if_neg (by omega), if_pos h, if_neg (by omega), if_pos h.symm]; rfl
    · rw [if_neg (by omega), if_neg (by omega), if_pos h]; rfl
  · rw [natCmp_eq_lt] at *
    omega

theorem charCmp_laws : CmpLaws charCmp := by
  refine ⟨fun a b => ?_, fun a b => natCmp_laws.symm _ _,
    fun {a b d} h1 h2 => natCmp_laws.lt_trans h1 h2⟩
  rw [charCmp, natCmp_laws.eq_iff]
  constructor
  · intro h
    apply Char.eq_of_val_eq
    apply UInt32.eq_of_val_eq
    apply Fin.eq_of_val_eq
    simpa [Char.toNat, UInt32.toNat] using h
  · intro h; rw [h]

theorem listCmp_laws (c : α → α → Ordering) (hc : CmpLaws c) :
    CmpLaws (listCmp c) := by
  constructor
  · intro a b
    induction a generalizing b with
    | nil => cases b <;> simp [listCmp]
    | cons x xs ih =>
      cases b with
      | nil => simp [listCmp]
      | cons y ys =>
        simp only [listCmp, then_eq_eq, hc.eq_iff, ih, List.cons.injEq]
  · intro a b
    induction a generalizing b with
    | nil => cases b <;> simp [listCmp, Ordering.swap]
    | cons x xs ih =>
      cases b with
      | nil => simp [listCmp, Ordering.swap]
      | cons y ys =>
        simp only [listCmp]
        rw [hc.symm x y, ih ys, then_swap]
  · intro a b d h1 h2
    induction a generalizing b d with
    | nil =>
      cases b with
      | nil => exact absurd h1 (by simp [listCmp])
      | cons y ys =>
        cases d with
        | nil => exact absurd h2 (by simp [listCmp])
        | cons z zs => simp [listCmp]
    | cons x xs ih =>
      cases b with
      | nil => exact absurd h1 (by simp [listCmp])
      | cons y ys =>
        cases d with
        | nil => exact absurd h2 (by simp [listCmp])
        | cons z zs =>
          simp only [listCmp, then_eq_lt] at h1 h2 ⊢
          rcases h1 with h1 | ⟨h1e, h1r⟩ <;> rcases h2 with h2 | ⟨h2e, h2r⟩
          · exact Or.inl (hc.lt_trans h1 h2)
          · rw [(hc.eq_iff y z).mp h2e] at h1
            exact Or.inl h1
          · rw [(hc.eq_iff x y).mp h1e]
            exact Or.inl h2
          · rw [(hc.eq_iff x y).mp h1e]
            exact Or.inr ⟨h2e, ih h1r h2r⟩

theorem strCmp_laws : CmpLaws strCmp := by
  have h := listCmp_laws charCmp charCmp_laws
  refine ⟨fun a b => ?_, fun a b => h.symm _ _, fun {a b d} h1 h2 => h.lt_trans h1 h2⟩
  rw [strCmp, h.eq_iff]
  constructor
  · intro hd
    cases a; cases b
    simp only at hd
    rw [hd]
  · intro hd; rw [hd]

theorem cmpRev_laws (c : α → α → Ordering) (hc : CmpLaws c) : CmpLaws (cmpRev c) := by
  refine ⟨fun a b => ?_, fun a b => hc.symm _ _, fun {a b d} h1 h2 => hc.lt_trans h2 h1⟩
  rw [cmpRev, hc.eq_iff]
  exact eq_comm

theorem prodCmp_laws (c1 : α → α → Ordering) (c2 : β → β → Ordering)
    (h1 : CmpLaws c1) (h2 : CmpLaws c2) : CmpLaws (prodCmp c1 c2) := by
  constructor
  · intro a b
    simp only [prodCmp, then_eq_eq, h1.eq_iff, h2.eq_iff]
    exact ⟨fun h => Prod.ext h.1 h.2, fun h => by rw [h]; exact ⟨rfl, rfl⟩⟩
  · intro a b
    rw [prodCmp, prodCmp, h1.symm, h2.symm, then_swap]
  · intro a b d hab hbd
    simp only [prodCmp, then_eq_lt] at hab hbd ⊢
    rcases hab with hab | ⟨habe, habr⟩ <;> rcases hbd with hbd | ⟨hbde, hbdr⟩
    · exact Or.inl (h1.lt_trans hab hbd)
    · rw [(h1.eq_iff _ _).mp hbde] at hab
      exact Or.inl hab
    · rw [(h1.eq_iff _ _).mp habe]
      exact Or.inl hbd
    · rw [(h1.eq_iff _ _).mp habe]
      exact Or.inr ⟨hbde, h2.lt_trans habr hbdr⟩

theorem CmpLaws.gt_iff_swap_lt {c : α → α → Ordering} (hc : CmpLaws c)
    (a b : α) : c a b = .gt ↔ c b a = .lt := by
  rw [hc.symm a b]
  cases c b a <;> simp [Ordering.swap]

theorem CmpLaws.refl_eq {c : α → α → Ordering} (hc : CmpLaws c) (a : α) :
    c a a = .eq := (hc.eq_iff a a).mpr rfl

theorem CmpLaws.lt_irrefl {c : α → α → Ordering} (hc : CmpLaws c) (a : α) :
    c a a ≠ .lt := by
  rw [hc.refl_eq]
  simp

theorem CmpLaws.le_trans {c : α → α → Ordering} (hc : CmpLaws c) {x y z : α}
    (hxy : c x y ≠ .gt) (hyz : c y z ≠ .gt) : c x z ≠ .gt := by
  intro hcon
  have hzx : c z x = .lt := (hc.gt_iff_swap_lt x z).mp hcon
  rcases hab : c x y with _ | _ | _
  · rcases hbd : c y z with _ | _ | _
    · have hxz : c x z = .lt := hc.lt_trans hab hbd
      rw [hxz] at hcon
      exact absurd hcon (by simp)
    · rw [(hc.eq_iff y z).mp hbd] at hab
      rw [hab] at hcon
      exact absurd hcon (by simp)
    · exact hyz hbd
  · rw [(hc.eq_iff x y).mp hab] at hcon
    exact hyz hcon
  · exact hxy hab

theorem keyed_pre {κ : Type _} (kc : κ → κ → Ordering) (hk : CmpLaws kc)
    (key : α → κ) : CmpPre (fun a b => kc (key a) (key b)) := by
  constructor
  · intro a b
    by_cases h : kc (key a) (key b) = .gt
    · right
      rw [(hk.gt_iff_swap_lt _ _).mp h]
      simp
    · exact Or.inl h
  · intro a b d hab hbd
    exact hk.le_trans hab hbd

theorem sortBy_perm (c : α → α → Ordering) (l : List α) : List.Perm (sortBy c l) l :=
  List.perm_insertionSort _ l

theorem sortBy_sorted (c : α → α → Ordering) (hp : CmpPre c) (l : List α) :
    List.Sorted (fun a b => c a b ≠ .gt) (sortBy c l) := by
  haveI : IsTotal α (fun a b => c a b ≠ .gt) := ⟨hp.total⟩
  haveI : IsTrans α (fun a b => c a b ≠ .gt) := ⟨fun a b d hab hbd => hp.le_trans hab hbd⟩
  exact List.sorted_insertionSort _ l

theorem wsub_of_le {a b : Nat} (h : b ≤ a) : wsub a b = a - b := by
  simp [wsub, h]

/-! ## Properties of `maxByLast` and `minByPriorityFirst` -/

theorem CmpLaws.ge_trans {c : α → α → Ordering} (hc : CmpLaws c) {x y z : α}
    (hxy : c x y ≠ .lt) (hyz : c y z ≠ .lt) : c x z ≠ .lt := by
  intro hcon
  have h1 : c y x ≠ .gt := by
    intro hg
    exact hxy ((hc.gt_iff_swap_lt y x).mp hg)
  have h2 : c z y ≠ .gt := by
    intro hg
    exact hyz ((hc.gt_iff_swap_lt z y).mp hg)
  exact (hc.le_trans h2 h1) ((hc.gt_iff_swap_lt z x).mpr hcon)

theorem maxStep_none (c : α → α → Ordering) (x : α) :
    maxStep c none x = some x := rfl

theorem maxStep_some (c : α → α → Ordering) (m x : α) :
    maxStep c (some m) x = if c m x = .gt then some m else some x := rfl

theorem minStep_none (t : Tier) : minStep none t = some t := rfl

theorem minStep_some (m t : Tier) :
    minStep (some m) t = if t.priority < m.priority then some t else some m := rfl

theorem maxByLast_mem (c : α → α → Ordering) :
    ∀ (l : List α) (acc : Option α) (m : α),
      l.foldl (maxStep c) acc = some m → m ∈ l ∨ acc = some m := by
  intro l
  induction l with
  | nil => intro acc m h; exact Or.inr h
  | cons x xs ih =>
    intro acc m h
    simp only [List.foldl_cons] at h
    rcases acc with _ | a
    · rcases ih (some x) m h with hm | hm
      · exact Or.inl (List.mem_cons_of_mem _ hm)
      · exact Or.inl (by injection hm with hm; rw [← hm]; exact List.mem_cons_self _ _)
    · rw [maxStep_some] at h
      by_cases hg : c a x = .gt
      · rw [if_pos hg] at h
        rcases ih _ m h with hm | hm
        · exact Or.inl (List.mem_cons_of_mem _ hm)
        · exact Or.inr hm
      · rw [if_neg hg] at h
        rcases ih _ m h with hm | hm
        · exact Or.inl (List.mem_cons_of_mem _ hm)
        · exact Or.inl (by injection hm with hm; rw [← hm]; exact List.mem_cons_self _ _)

theorem maxByLast_ge {κ : Type _} (kc : κ → κ → Ordering) (hk : CmpLaws kc)
    (key : α → κ) :
    ∀ (l : List α) (acc : Option α) (m : α),
      l.foldl (maxStep (fun a b => kc (key a) (key b))) acc = some m →
      (∀ x ∈ l, kc (key m) (key x) ≠ .lt) ∧
        (∀ a, acc = some a → kc (key m) (key a) ≠ .lt) := by
  intro l
  induction l with
  | nil =>
    intro acc m h
    refine ⟨by simp, fun a ha => ?_⟩
    simp only [List.foldl_nil] at h
    rw [ha] at h
    injection h with h
    rw [h, hk.refl_eq]
    simp
  | cons x xs ih =>
    intro acc m h
    simp only [List.foldl_cons] at h
    rcases acc with _ | a
    · rw [maxStep_none] at h
      have := ih (some x) m h
      refine ⟨fun y hy => ?_, by simp⟩
      rcases List.mem_cons.mp hy with hy | hy
      · rw [hy]
        exact this.2 x rfl
      · exact this.1 y hy
    · rw [maxStep_some] at h
      by_cases hg : kc (key a) (key x) = .gt
      · rw [if_pos hg] at h
        have := ih (some a) m h
        have hma : kc (key m) (key a) ≠ .lt := this.2 a rfl
        have hax : kc (key a) (key x) ≠ .lt := by rw [hg]; simp
        refine ⟨fun y hy => ?_, fun b hb => ?_⟩
        · rcases List.mem_cons.mp hy with hy | hy
          · rw [hy]
            exact hk.ge_trans hma hax
          · exact this.1 y hy
        · injection hb with hb
          rw [← hb]
          exact hma
      · rw [if_neg hg] at h
        have := ih (some x) m h
        have hmx : kc (key m) (key x) ≠ .lt := this.2 x rfl
        have hxa : kc (key x) (key a) ≠ .lt := by
          intro hl
          exact hg ((hk.gt_iff_swap_lt _ _).mpr hl)
        refine ⟨fun y hy => ?_, fun b hb => ?_⟩
        · rcases List.mem_cons.mp hy with hy | hy
          · rw [hy]
            exact hmx
          · exact this.1 y hy
        · injection hb with hb
          rw [← hb]
          exact hk.ge_trans hmx hxa

theorem maxByLast_isSome (c : α → α → Ordering) :
    ∀ (l : List α) (acc : Option α), l ≠ [] ∨ acc.isSome →
      (l.foldl (maxStep c) acc).isSome := by
  intro l
  induction l with
  | nil =>
    intro acc h
    rcases h with h | h
    · exact absurd rfl h
    · simpa using h
  | cons x xs ih =>
    intro acc h
    simp only [List.foldl_cons]
    rcases acc with _ | a
    · exact ih (maxStep c none x) (Or.inr rfl)
    · rw [maxStep_some]
      by_cases hg : c a x = .gt
      · rw [if_pos hg]; exact ih (some a) (Or.inr rfl)
      · rw [if_neg hg]; exact ih (some x) (Or.inr rfl)

theorem minByPriorityFirst_spec :
    ∀ (l : List Tier) (acc : Option Tier) (m : Tier),
      l.foldl minStep acc = some m →
      ((m ∈ l ∨ acc = some m) ∧
        (∀ t ∈ l, m.priority ≤ t.priority) ∧
        (∀ a, acc = some a → m.priority ≤ a.priority)) := by
  intro l
  induction l with
  | nil =>
    intro acc m h
    simp only [List.foldl_nil] at h
    refine ⟨Or.inr h, by simp, fun a ha => ?_⟩
    rw [ha] at h
    injection h with h
    rw [h]
  | cons x xs ih =>
    intro acc m h
    simp only [List.foldl_cons] at h
    rcases acc with _ | a
    · rw [minStep_none] at h
      have := ih (some x) m h
      refine ⟨?_, fun t ht => ?_, by simp⟩
      · rcases this.1 with hm | hm
        · exact Or.inl (List.mem_cons_of_mem _ hm)
        · exact Or.inl (by injection hm with hm; rw [← hm]; exact List.mem_cons_self _ _)
      · rcases List.mem_cons.mp ht with ht | ht
        · rw [ht]
          exact this.2.2 x rfl
        · exact this.2.1 t ht
    · rw [minStep_some] at h
      by_cases hlt : x.priority < a.priority
      · rw [if_pos hlt] at h
        have := ih (some x) m h
        have hmx := this.2.2 x rfl
        refine ⟨?_, fun t ht => ?_, fun b hb => ?_⟩
        · rcases this.1 with hm | hm
          · exact Or.inl (List.mem_cons_of_mem _ hm)
          · exact Or.inl (by injection hm with hm; rw [← hm]; exact List.mem_cons_self _ _)
        · rcases List.mem_cons.mp ht with ht | ht
          · rw [ht]; exact hmx
          · exact this.2.1 t ht
        · injection hb with hb
          rw [← hb]
          omega
      · rw [if_neg hlt] at h
        have := ih (some a) m h
        have hma := this.2.2 a rfl
        refine ⟨?_, fun t ht => ?_, fun b hb => ?_⟩
        · rcases this.1 with hm | hm
          · exact Or.inl (List.mem_cons_of_mem _ hm)
          · exact Or.inr hm
        · rcases List.mem_cons.mp ht with ht | ht
          · rw [ht]; omega
          · exact this.2.1 t ht
        · injection hb with hb
          rw [← hb]
          exact hma

/-! ## Helper lemmas for the eviction selection -/

theorem greedyPrefix_of_le {needed freed : Nat} (l : List (Nat × Nat × Nat))
    (h : needed ≤ freed) : greedyPrefix needed l freed = [] := by
  cases l with
  | nil => rfl
  | cons c rest =>
    rcases c with ⟨idx, p, sz⟩
    rw [greedyPrefix, if_pos h]

theorem selectLoop_eq_greedy (maxB needed : Nat) :
    ∀ (cands : List (Nat × Nat × Nat)) (freed : Nat),
      selectLoop maxB needed cands freed =
        greedyPrefix needed (cands.filter (fun c => c.2.1 < maxB)) freed := by
  intro cands
  induction cands with
  | nil => intro freed; rfl
  | cons c rest ih =>
    intro freed
    rcases c with ⟨idx, p, sz⟩
    rw [selectLoop]
    by_cases hf : needed ≤ freed
    · rw [if_pos hf, greedyPrefix_of_le _ hf]
    · rw [if_neg hf]
      by_cases hp : p < maxB
      · have : List.filter (fun c => decide (c.2.1 < maxB)) ((idx, p, sz) :: rest) =
            (idx, p, sz) :: List.filter (fun c => decide (c.2.1 < maxB)) rest := by
          rw [List.filter_cons, if_pos (by simpa using hp)]
        rw [this, if_pos hp, greedyPrefix, if_neg hf, ih]
      · have : List.filter (fun c => decide (c.2.1 < maxB)) ((idx, p, sz) :: rest) =
            List.filter (fun c => decide (c.2.1 < maxB)) rest := by
          rw [List.filter_cons, if_neg (by simpa using hp)]
        rw [this, if_neg hp, ih]

/-! ## Claim C5 — Pass 3a eviction-candidate selection -/

/-- C5 counterexample: with candidates in decision-list order
`[(index 0, priority 5, 500 bytes), (index 1, priority 3, 500 bytes)]`,
400 bytes needed and blocked maximum priority 10, the code picks index 0 —
the first candidate in decision order — and stops, while the claim's
ascending-priority ordering would pick index 1 (priority 3) first. Pass 3a
never sorts the candidates. -/
theorem C5_counterexample :
    selectFilesToEvict [(0, 5, 500), (1, 3, 500)] 400 blocked5 = [0] ∧
      specSelectFilesToEvict [(0, 5, 500), (1, 3, 500)] 400 blocked5 = [1] ∧
      ([0] : List Nat) ≠ [1] := by
  refine ⟨by decide, by decide, by decide⟩

/-- C5 (amended): in Pass 3a the eviction candidates are the decisions
currently Staying on the tier in decision-list order — no ascending-priority
sort is applied — and the pick is the greedy prefix, in that order, of the
candidates whose strategy priority is strictly below the maximum blocked
priority, stopping once the freed size reaches the blocked total. -/
theorem C5_selection :
    ∀ (tierName : String) (ds : List PlacementDecision) (needed : Nat)
      (blocked : List BlockedPlacement),
      selectFilesToEvict (findEvictionCandidates tierName ds) needed blocked =
        greedyPrefix needed
          ((findEvictionCandidates tierName ds).filter
            (fun c =>
              c.2.1 < (blocked.map (fun b => b.strategyPriority)).foldl Nat.max 0))
          0 := by
  intro tierName ds needed blocked
  rw [selectFilesToEvict, selectLoop_eq_greedy]

/-! ## Claim C6 — fallback-tier selection -/

/-- C6 counterexample: tiers `a` (priority 1, current), `m` (priority 2, no
free space), `s` (priority 3, plenty of space). The code inspects only `m`,
the slower tier with the smallest priority number, finds it cannot accept the
100-byte file, and returns `none` — while the claim's rule ("the smallest
priority number that can accept") returns `s`. -/
theorem C6_counterexample :
    findFallbackTier [tierFall1, tierFall2, tierFall3] "a" fsFallFull 100 = none ∧
      (specFallbackTier [tierFall1, tierFall2, tierFall3] "a" fsFallFull 100).map
          (fun t => t.name) = some "s" := by
  refine ⟨by decide, by decide⟩

/-- Soundness of `find_fallback_tier`: a returned tier is the minimum-priority
slower tier and its admission holds. -/
theorem findFallbackTier_sound (tiers : List Tier) (cur : String)
    (fs : FreeSpace) (size : Nat) (t : Tier)
    (h : findFallbackTier tiers cur fs size = some t) :
    t ∈ tiers ∧
      (∃ curT, findTier tiers cur = some curT ∧ curT.priority < t.priority ∧
        ∀ t' ∈ tiers, curT.priority < t'.priority → t.priority ≤ t'.priority) ∧
      (∃ free, fsGet? fs t.name = some free ∧ canAcceptFile t size free = true) := by
  rw [findFallbackTier] at h
  split at h
  · exact absurd h (by simp)
  · rename_i curT hcur
    split at h
    · exact absurd h (by simp)
    · rename_i m hmin
      split at h
      · rename_i hacc
        injection h with h
        subst h
        have hspec := minByPriorityFirst_spec _ none m hmin
        have hmem : m ∈ tiers.filter (fun t' => decide (curT.priority < t'.priority)) := by
          rcases hspec.1 with hm | hm
          · exact hm
          · exact absurd hm (by simp)
        have hmem' := List.mem_filter.mp hmem
        have hex : ∃ free, fsGet? fs m.name = some free ∧
            canAcceptFile m size free = true := by
          rw [fsAccepts] at hacc
          rcases hfree : fsGet? fs m.name with _ | free
          · rw [hfree] at hacc
            exact absurd hacc (by simp)
          · rw [hfree] at hacc
            exact ⟨free, rfl, by simpa using hacc⟩
        refine ⟨hmem'.1, ⟨curT, hcur, by simpa using hmem'.2, fun t' ht' hpr => ?_⟩, hex⟩
        exact hspec.2.1 t' (List.mem_filter.mpr ⟨ht', by simpa using hpr⟩)
      · exact absurd h (by simp)

/-- C6 (amended): when `find_fallback_tier` returns a tier, that tier is the
slower tier with the minimum priority number and it can accept the file
under the simulated table; the admission of no other slower tier is ever
consulted, so the selection fails whenever that single tier cannot
accept. -/
theorem C6_fallback (tiers : List Tier) (cur : String) (fs : FreeSpace)
    (size : Nat) (t : Tier)
    (h : findFallbackTier tiers cur fs size = some t) :
    t ∈ tiers ∧
      (∃ curT, findTier tiers cur = some curT ∧ curT.priority < t.priority ∧
        ∀ t' ∈ tiers, curT.priority < t'.priority → t.priority ≤ t'.priority) ∧
      (∃ free, fsGet? fs t.name = some free ∧ canAcceptFile t size free = true) :=
  findFallbackTier_sound tiers cur fs size t h

/-- C6 witness: when the nearest slower tier has room, the fallback theorem
applies at a concrete configuration. -/
theorem C6_witness :
    tierFall2 ∈ [tierFall1, tierFall2, tierFall3] :=
  (C6_fallback [tierFall1, tierFall2, tierFall3] "a" fsFallRoom 100 tierFall2
    (by decide)).1

/-! ## Claim C4 — strategy selection tie-break -/

/-- C4 counterexample: two always-matching strategies with equal priority 5
and names `"a" < "b"`. `find_matching_strategy` (Rust `max_by`, which keeps
the later and name-greater maximum) selects `"b"`, while the claim's
tie-break — the name first in ascending lexicographic order — selects
`"a"`. -/
theorem C4_counterexample :
    (findMatchingStrategy [strategyA, strategyB] probeFile "t").map
        (fun s => s.name) = some "b" ∧
      (specSelectStrategy [strategyA, strategyB] probeFile "t").map
          (fun s => s.name) = some "a" ∧
      ("b" : String) ≠ "a" := by
  refine ⟨rfl, rfl, by decide⟩

/-- C4 (amended): the selected strategy matches the file and has the
greatest priority among matching strategies; among matching strategies of
that greatest priority its name is the greatest (the last in ascending
lexicographic order), not the least. -/
theorem C4_strategy_tie_break (strategies : List Strategy) (f : FileInfo)
    (ctx : String) (s : Strategy)
    (h : findMatchingStrategy strategies f ctx = some s) :
    (s ∈ strategies ∧ s.matchesFn f ctx = true) ∧
      ∀ s' ∈ strategies, s'.matchesFn f ctx = true →
        s'.priority ≤ s.priority ∧
          (s'.priority = s.priority → strCmp s'.name s.name ≠ .gt) := by
  have hkc : CmpLaws (prodCmp natCmp strCmp) :=
    prodCmp_laws _ _ natCmp_laws strCmp_laws
  rw [findMatchingStrategy, maxByLast] at h
  have hstep : maxStep strategyCmp =
      maxStep (fun a b : Strategy =>
        prodCmp natCmp strCmp (a.priority, a.name) (b.priority, b.name)) := rfl
  rw [hstep] at h
  have hmem := maxByLast_mem
    (fun a b : Strategy => prodCmp natCmp strCmp (a.priority, a.name) (b.priority, b.name))
    _ _ _ h
  have hge := maxByLast_ge (prodCmp natCmp strCmp) hkc
    (fun s : Strategy => (s.priority, s.name)) _ _ _ h
  have hsf : s ∈ strategies.filter (fun s' => s'.matchesFn f ctx) := by
    rcases hmem with hm | hm
    · exact hm
    · exact absurd hm (by simp)
  have hsf' := List.mem_filter.mp hsf
  refine ⟨⟨hsf'.1, hsf'.2⟩, fun s' hs' hm' => ?_⟩
  have hin : s' ∈ strategies.filter (fun s' => s'.matchesFn f ctx) :=
    List.mem_filter.mpr ⟨hs', hm'⟩
  have hcmp := hge.1 s' hin
  rw [prodCmp] at hcmp
  have hsplit : ¬(natCmp s.priority s'.priority = .lt ∨
      (natCmp s.priority s'.priority = .eq ∧ strCmp s.name s'.name = .lt)) := by
    intro hc
    exact hcmp ((then_eq_lt _ _).mpr hc)
  push_neg at hsplit
  constructor
  · have := hsplit.1
    rw [Ne, natCmp_eq_lt] at this
    omega
  · intro hp
    have heq : natCmp s.priority s'.priority = .eq := natCmp_eq_eq.mpr hp.symm
    have hne := hsplit.2 heq
    intro hgt
    exact hne ((strCmp_laws.gt_iff_swap_lt _ _).mp hgt)

/-- C4 witness: the tie-break theorem applied at the two fixture
strategies. -/
theorem C4_witness :
    strategyB ∈ [strategyA, strategyB] ∧
      strategyB.matchesFn probeFile "t" = true :=
  (C4_strategy_tie_break [strategyA, strategyB] probeFile "t" strategyB rfl).1

/-! ## Claim C7 — the admission test versus the spec's reference -/

/-- C7 counterexample: `tierWrap` has total 100 and ceiling 80. At
`size = 10`, `simulated_free = 300` the subtraction
`total - (simulated_free - size)` underflows: the code (release semantics)
wraps to a huge percent and rejects, while the spec's reference definition
computes the negative percent `-190 ≤ 80` and accepts. The claimed
equivalence fails at this input. -/
theorem C7_counterexample :
    canAcceptFile tierWrap 10 300 = false ∧
      specCanAccept tierWrap 10 300 = true := by
  refine ⟨by decide, by decide⟩

/-- C7 (amended): the admission test equals the spec's reference definition
on every input where the projected free space does not exceed the tier's
total (`simulated_free − size ≤ total`), i.e. whenever the subtraction does
not underflow. -/
theorem C7_admission_matches_spec (t : Tier) (size sf : Nat)
    (h : sf - size ≤ t.totalSpace) :
    canAcceptFile t size sf = specCanAccept t size sf := by
  by_cases hlt : sf < size
  · rw [canAcceptFile, if_pos hlt, specCanAccept]
    have hds : decide (size ≤ sf) = false := by
      simp only [decide_eq_false_iff_not]
      omega
    rw [hds, Bool.false_and]
  · have hsz : size ≤ sf := by omega
    rw [canAcceptFile, if_neg hlt, specCanAccept]
    have hds : decide (size ≤ sf) = true := by simpa using hsz
    rw [hds, Bool.true_and]
    rcases hm : t.maxUsagePercent with _ | maxP
    · rfl
    · simp only
      rw [wsub_of_le h]
      have hInt : (t.totalSpace : Int) - ((sf : Int) - (size : Int)) =
          ((t.totalSpace - (sf - size) : Nat) : Int) := by
        omega
      rw [hInt]
      by_cases h0 : t.totalSpace = 0
      · have hu0 : t.totalSpace - (sf - size) = 0 := by omega
        rw [h0] at hu0 ⊢
        rw [hu0]
        rw [pctOf]
        norm_num
      · have hpct : ((t.totalSpace - (sf - size) : Nat) : Int) * 100 /
            (t.totalSpace : Int) =
            ((pctOf (t.totalSpace - (sf - size)) t.totalSpace : Nat) : Int) := by
          rw [pctOf, if_neg h0]
          push_cast
          rfl
        rw [hpct]
        by_cases hq : maxP < pctOf (t.totalSpace - (sf - size)) t.totalSpace
        · rw [if_pos hq]
          have : ¬(((pctOf (t.totalSpace - (sf - size)) t.totalSpace : Nat) : Int) ≤
              (maxP : Int)) := by
            intro hc
            have : pctOf (t.totalSpace - (sf - size)) t.totalSpace ≤ maxP := by
              exact_mod_cast hc
            omega
          simp [this]
        · rw [if_neg hq]
          have : ((pctOf (t.totalSpace - (sf - size)) t.totalSpace : Nat) : Int) ≤
              (maxP : Int) := by
            have : pctOf (t.totalSpace - (sf - size)) t.totalSpace ≤ maxP := by omega
            exact_mod_cast this
          simp [this]

/-- C7 witness: the equivalence theorem applied at the fixture tier with an
in-range free value. -/
theorem C7_witness :
    canAcceptFile tierWrap 10 50 = specCanAccept tierWrap 10 50 :=
  C7_admission_matches_spec tierWrap 10 50 (by decide)

/-! ## Claim C9 — capacity boundary of the admission test -/

/-- C9 counterexample: `tierCap` is empty, total 1000, ceiling 80 %.
A file of 800 bytes lands exactly at 80 % and is accepted; the claim says a
file of 801 bytes must be rejected, but the truncated percent of 801 bytes
is still 80, so it is accepted too. -/
theorem C9_counterexample :
    canAcceptFile tierCap 800 1000 = true ∧
      canAcceptFile tierCap 801 1000 = true := by
  refine ⟨by decide, by decide⟩

/-- C9 (amended): with a ceiling set, enough free space and no underflow,
admission holds exactly when the truncated projected percent is at most the
ceiling — so rejection starts at the first size whose truncated percent
strictly exceeds the ceiling (one whole percent granule past the boundary),
not one byte past it. -/
theorem C9_boundary (t : Tier) (maxP size sf : Nat)
    (hmax : t.maxUsagePercent = some maxP) (hsz : size ≤ sf)
    (hb : sf - size ≤ t.totalSpace) (ht : 0 < t.totalSpace) :
    (canAcceptFile t size sf = true ↔
      (t.totalSpace - (sf - size)) * 100 / t.totalSpace ≤ maxP) := by
  have hpct : pctOf (t.totalSpace - (sf - size)) t.totalSpace =
      (t.totalSpace - (sf - size)) * 100 / t.totalSpace := by
    rw [pctOf, if_neg (by omega)]
  rw [canAcceptFile, if_neg (by omega), hmax]
  simp only
  rw [wsub_of_le hb, hpct]
  by_cases hq : maxP < (t.totalSpace - (sf - size)) * 100 / t.totalSpace
  · rw [if_pos hq]
    constructor
    · intro hc
      exact absurd hc (by simp)
    · intro hc
      omega
  · rw [if_neg hq]
    constructor
    · intro _
      omega
    · intro _
      rfl

/-- C9 witness: at `tierCap` (total 1000, ceiling 80), a file of 809 bytes
(truncated percent 80) is accepted and a file of 810 bytes (truncated
percent 81) is rejected — the boundary sits one percent granule, not one
byte, past the exact 80 % mark. -/
theorem C9_witness :
    canAcceptFile tierCap 809 1000 = true ∧
      canAcceptFile tierCap 810 1000 = false := by
  constructor
  · exact (C9_boundary tierCap 80 809 1000 rfl (by decide) (by decide)
      (by decide)).mpr (by decide)
  · have h := C9_boundary tierCap 80 810 1000 rfl (by decide) (by decide)
      (by decide)
    cases hc : canAcceptFile tierCap 810 1000
    · rfl
    · exact absurd (h.mp hc) (by decide)

/-! ## List utilities for the in-place decision rewrites -/

theorem mem_of_get? : ∀ (l : List α) (i : Nat) (b : α), l.get? i = some b → b ∈ l := by
  intro l
  induction l with
  | nil => intro i b h; cases i <;> exact absurd h (by simp)
  | cons x xs ih =>
    intro i b h
    cases i with
    | zero =>
      injection h with h
      rw [h]
      exact List.mem_cons_self _ _
    | succ j => exact List.mem_cons_of_mem _ (ih j b h)

theorem map_set_eq_of (f : α → β) :
    ∀ (l : List α) (i : Nat) (a : α),
      (∀ b, l.get? i = some b → f a = f b) → (l.set i a).map f = l.map f := by
  intro l
  induction l with
  | nil => intro i a _; rfl
  | cons x xs ih =>
    intro i a h
    cases i with
    | zero =>
      simp only [List.set_cons_zero, List.map_cons]
      rw [h x rfl]
    | succ j =>
      simp only [List.set_cons_succ, List.map_cons]
      rw [ih j a (fun b hb => h b hb)]

theorem findIdx?_go_spec (p : α → Bool) :
    ∀ (l : List α) (s i : Nat), List.findIdx? p l s = some i →
      s ≤ i ∧ ∃ b, l.get? (i - s) = some b ∧ p b = true := by
  intro l
  induction l with
  | nil => intro s i h; exact absurd h (by simp [List.findIdx?])
  | cons x xs ih =>
    intro s i h
    rw [List.findIdx?] at h
    by_cases hp : p x = true
    · rw [if_pos hp] at h
      injection h with h
      refine ⟨by omega, x, ?_, hp⟩
      rw [← h]
      simp
    · rw [if_neg hp] at h
      have := ih (s + 1) i h
      refine ⟨by omega, ?_⟩
      rcases this.2 with ⟨b, hb, hpb⟩
      refine ⟨b, ?_, hpb⟩
      have hs : i - s = (i - (s + 1)) + 1 := by omega
      rw [hs]
      simpa using hb

theorem findIdx?_spec (p : α → Bool) (l : List α) (i : Nat)
    (h : l.findIdx? p = some i) :
    ∃ b, l.get? i = some b ∧ p b = true := by
  have := findIdx?_go_spec p l 0 i h
  simpa using this.2

/-! ## Free-space table lemmas -/

theorem fsGet?_update_self (fs : FreeSpace) (k : String) (g : Nat → Nat) :
    fsGet? (fsUpdate fs k g) k = (fsGet? fs k).map g := by
  induction fs with
  | nil => rfl
  | cons p rest ih =>
    rw [fsUpdate]
    by_cases hk : p.1 == k
    · rw [if_pos hk]
      rw [fsGet?, fsGet?, List.find?, List.find?]
      simp only [hk]
      rfl
    · rw [if_neg (by simpa using hk)]
      rw [fsGet?, fsGet?, List.find?, List.find?]
      simp only [Bool.not_eq_true] at hk
      rw [hk]
      exact ih

theorem fsGet?_update_ne (fs : FreeSpace) (k k' : String) (g : Nat → Nat)
    (h : k ≠ k') : fsGet? (fsUpdate fs k g) k' = fsGet? fs k' := by
  induction fs with
  | nil => rfl
  | cons p rest ih =>
    rw [fsUpdate]
    by_cases hk : p.1 == k
    · rw [if_pos hk]
      rw [fsGet?, fsGet?, List.find?, List.find?]
      have hne : (p.1 == k') = false := by
        have : p.1 = k := by simpa using hk
        simp [this, h]
      simp only [hne]
    · rw [if_neg (by simpa using hk)]
      rw [fsGet?, fsGet?, List.find?, List.find?]
      by_cases hk' : p.1 == k'
      · simp only [hk']
      · simp only [Bool.not_eq_true] at hk'
        rw [hk']
        exact ih

theorem fsGet?_applyMove_le (fs : FreeSpace) (sz : Nat) (src dst n : String)
    (v' : Nat) (h : fsGet? (applyMove fs sz src dst) n = some v') :
    ∃ v, fsGet? fs n = some v ∧ v' ≤ v + (if n = src then sz else 0) := by
  rw [applyMove] at h
  by_cases hsrc : n = src
  · rw [← hsrc] at h
    by_cases hdst : dst = n
    · rw [hdst] at h
      rw [fsGet?_update_self, fsGet?_update_self] at h
      rcases hv : fsGet? fs n with _ | v
      · rw [hv] at h
        exact absurd h (by simp)
      · rw [hv] at h
        simp only [Option.map] at h
        injection h with h
        refine ⟨v, rfl, ?_⟩
        rw [if_pos hsrc]
        have hs : satAdd v sz ≤ v + sz := min_le_left _ _
        omega
    · rw [fsGet?_update_ne _ _ _ _ hdst, fsGet?_update_self] at h
      rcases hv : fsGet? fs n with _ | v
      · rw [hv] at h
        exact absurd h (by simp)
      · rw [hv] at h
        simp only [Option.map] at h
        injection h with h
        refine ⟨v, rfl, ?_⟩
        rw [if_pos hsrc]
        have hs : satAdd v sz ≤ v + sz := min_le_left _ _
        omega
  · by_cases hdst : dst = n
    · rw [hdst] at h
      rw [fsGet?_update_self, fsGet?_update_ne _ _ _ _ (fun hc => hsrc hc.symm)] at h
      rcases hv : fsGet? fs n with _ | v
      · rw [hv] at h
        exact absurd h (by simp)
      · rw [hv] at h
        simp only [Option.map] at h
        injection h with h
        refine ⟨v, rfl, ?_⟩
        rw [if_neg hsrc]
        omega
    · rw [fsGet?_update_ne _ _ _ _ hdst,
        fsGet?_update_ne _ _ _ _ (fun hc => hsrc hc.symm)] at h
      exact ⟨v', h, by rw [if_neg hsrc]; omega⟩

theorem fsGet?_initFreeSpace (tiers : List Tier) (n : String) :
    fsGet? (initFreeSpace tiers) n =
      (findTier tiers n).map (fun t => t.freeSpace) := by
  induction tiers with
  | nil => rfl
  | cons t rest ih =>
    rw [initFreeSpace, List.map_cons, fsGet?, List.find?, findTier, List.find?]
    by_cases hn : t.name == n
    · simp only [hn]
      rfl
    · simp only [Bool.not_eq_true] at hn
      simp only [hn]
      exact ih

/-! ## Decision-path preservation through the eviction passes

Every rewrite performed by Passes 3a and 3b is a `set` at an index holding a
decision for the same file, so the list of file paths is unchanged.
-/

theorem applyEvictions_paths (tiers : List Tier) :
    ∀ (idxs : List Nat) (ds : List PlacementDecision) (fs : FreeSpace),
      ((applyEvictions tiers idxs ds fs).1).map PlacementDecision.filePath =
        ds.map PlacementDecision.filePath := by
  have main : ∀ (l : List Nat) (ds : List PlacementDecision) (fs : FreeSpace),
      ((l.foldl
          (fun st evictIdx =>
            match st.1.get? evictIdx with
            | some (.stay f curT strat prio) =>
              match findFallbackTier tiers curT st.2 f.size with
              | some fallback =>
                (st.1.set evictIdx (.demote f curT fallback.name strat prio),
                 applyMove st.2 f.size curT fallback.name)
              | none => st
            | _ => st)
          (ds, fs)).1).map PlacementDecision.filePath =
        ds.map PlacementDecision.filePath := by
    intro l
    induction l with
    | nil => intro ds fs; rfl
    | cons i rest ih =>
      intro ds fs
      rw [List.foldl_cons]
      dsimp only
      rcases hget : ds.get? i with _ | d
      · exact ih ds fs
      · cases d with
        | stay f curT strat prio =>
          dsimp only
          rcases hfb : findFallbackTier tiers curT fs f.size with _ | fb
          · exact ih ds fs
          · exact (ih _ _).trans (map_set_eq_of _ ds i _
              (fun b hb => by rw [hget] at hb; injection hb with hb; subst hb; rfl))
        | promote f fr t2 strat prio => exact ih ds fs
        | demote f fr t2 strat prio => exact ih ds fs
  intro idxs ds fs
  exact main idxs.reverse ds fs

theorem foldl_paths_preserve {ι : Type _}
    (f : (List PlacementDecision × FreeSpace) → ι →
      (List PlacementDecision × FreeSpace))
    (hstep : ∀ st x, ((f st x).1).map PlacementDecision.filePath =
      (st.1).map PlacementDecision.filePath) :
    ∀ (l : List ι) (st : List PlacementDecision × FreeSpace),
      ((l.foldl f st).1).map PlacementDecision.filePath =
        (st.1).map PlacementDecision.filePath := by
  intro l
  induction l with
  | nil => intro st; rfl
  | cons x xs ih =>
    intro st
    rw [List.foldl_cons]
    exact (ih _).trans (hstep st x)

theorem replanBlockedFiles_paths (tiers : List Tier) :
    ∀ (bs : List BlockedPlacement) (ds : List PlacementDecision) (fs : FreeSpace),
      ((replanBlockedFiles tiers bs ds fs).1).map PlacementDecision.filePath =
        ds.map PlacementDecision.filePath := by
  intro bs ds fs
  refine foldl_paths_preserve _ ?_ bs (ds, fs)
  intro st b
  obtain ⟨ds0, fs0⟩ := st
  dsimp only
  rcases hdt : findTier tiers b.desiredTier with _ | target
  · rfl
  · rcases hct : findTier tiers b.currentTier with _ | cur
    · rfl
    · dsimp only
      by_cases hacc : fsAccepts fs0 target b.file.size = true
      · rw [if_pos (by simpa using hacc)]
        split
        · rename_i idx hidx
          rcases findIdx?_spec _ ds0 idx hidx with ⟨d, hd, hpd⟩
          refine map_set_eq_of _ ds0 idx _ (fun b' hb' => ?_)
          rw [hd] at hb'
          injection hb' with hb'
          rw [← hb']
          have hdp : d.filePath = b.file.path := by simpa using hpd
          by_cases hpr : target.priority < cur.priority
          · rw [if_pos hpr]
            exact hdp.symm
          · rw [if_neg hpr]
            exact hdp.symm
        · rfl
      · rw [if_neg (by simpa using hacc)]

theorem evictLoopB_paths (tiers : List Tier) (tierName : String)
    (total targetUsed : Nat) :
    ∀ (cands : List (Nat × Nat × Nat)) (ds : List PlacementDecision)
      (fs : FreeSpace),
      ((evictLoopB tiers tierName total targetUsed cands ds fs).1).map
          PlacementDecision.filePath =
        ds.map PlacementDecision.filePath := by
  intro cands
  induction cands with
  | nil => intro ds fs; rfl
  | cons c rest ih =>
    intro ds fs
    rcases c with ⟨idx, p, sz⟩
    rw [evictLoopB]
    by_cases hstop : total - (fsGet? fs tierName).getD 0 ≤ targetUsed
    · rw [if_pos hstop]
    · rw [if_neg hstop]
      rcases hget : ds.get? idx with _ | d
      · exact ih ds fs
      · cases d with
        | stay f curT strat prio =>
          dsimp only
          rcases hfb : findFallbackTier tiers curT fs f.size with _ | fb
          · exact ih ds fs
          · exact (ih _ _).trans (map_set_eq_of _ ds idx _
              (fun b hb => by rw [hget] at hb; injection hb with hb; subst hb; rfl))
        | promote f fr t2 strat prio => exact ih ds fs
        | demote f fr t2 strat prio => exact ih ds fs

theorem evictToTargetUsage_paths (tiers : List Tier) (tierName : String)
    (targetPercent : Nat) (ds : List PlacementDecision) (fs : FreeSpace) :
    ((evictToTargetUsage tiers tierName targetPercent ds fs).1).map
        PlacementDecision.filePath =
      ds.map PlacementDecision.filePath := by
  rw [evictToTargetUsage]
  rcases ht : findTier tiers tierName with _ | t
  · rfl
  · exact evictLoopB_paths tiers tierName _ _ _ ds fs

theorem evictExcessUsage_paths (tiers : List Tier) :
    ∀ (ts : List Tier) (ds : List PlacementDecision) (fs : FreeSpace),
      ((ts.foldl
          (fun st t =>
            match t.maxUsagePercent with
            | none => st
            | some maxPercent =>
              let total := t.totalSpace
              let simulatedFree := (fsGet? st.2 t.name).getD 0
              let simulatedUsed := total - simulatedFree
              let simulatedPercent :=
                if 0 < total then pctOf simulatedUsed total else 0
              if maxPercent < simulatedPercent then
                evictToTargetUsage tiers t.name maxPercent st.1 st.2
              else st)
          (ds, fs)).1).map PlacementDecision.filePath =
        ds.map PlacementDecision.filePath := by
  intro ts
  induction ts with
  | nil => intro ds fs; rfl
  | cons t rest ih =>
    intro ds fs
    rw [List.foldl_cons]
    dsimp only
    rcases hmp : t.maxUsagePercent with _ | maxP
    · exact ih ds fs
    · dsimp only
      by_cases hover : maxP <
          (if 0 < t.totalSpace then
            pctOf (t.totalSpace - (fsGet? fs t.name).getD 0) t.totalSpace
          else 0)
      · rw [if_pos hover]
        rcases hres : evictToTargetUsage tiers t.name maxP ds fs with ⟨ds', fs'⟩
        rw [ih ds' fs']
        have hp := evictToTargetUsage_paths tiers t.name maxP ds fs
        rw [hres] at hp
        exact hp
      · rw [if_neg hover]
        exact ih ds fs

theorem evictFromTier_paths (tiers : List Tier) (tierName : String)
    (blockedList : List BlockedPlacement) (ds : List PlacementDecision)
    (fs : FreeSpace) :
    ((evictFromTier tiers tierName blockedList ds fs).1).map
        PlacementDecision.filePath =
      ds.map PlacementDecision.filePath := by
  rw [evictFromTier]
  rcases happ : applyEvictions tiers
      (selectFilesToEvict (findEvictionCandidates tierName ds)
        (calculateNeededSpace (sortBy blockedCmp blockedList))
        (sortBy blockedCmp blockedList)) ds fs with ⟨ds', fs'⟩
  have h1 := applyEvictions_paths tiers
    (selectFilesToEvict (findEvictionCandidates tierName ds)
      (calculateNeededSpace (sortBy blockedCmp blockedList))
      (sortBy blockedCmp blockedList)) ds fs
  rw [happ] at h1
  rw [replanBlockedFiles_paths tiers _ ds' fs']
  exact h1

theorem evictToMakeSpace_paths (tiers : List Tier)
    (blocked : List BlockedPlacement) :
    ∀ (ks : List String) (ds : List PlacementDecision) (fs : FreeSpace),
      ((ks.foldl
          (fun st k => evictFromTier tiers k (groupOf blocked k) st.1 st.2)
          (ds, fs)).1).map PlacementDecision.filePath =
        ds.map PlacementDecision.filePath := by
  intro ks
  induction ks with
  | nil => intro ds fs; rfl
  | cons k rest ih =>
    intro ds fs
    rw [List.foldl_cons]
    rcases hres : evictFromTier tiers k (groupOf blocked k) ds fs with ⟨ds', fs'⟩
    rw [ih ds' fs']
    have hp := evictFromTier_paths tiers k (groupOf blocked k) ds fs
    rw [hres] at hp
    exact hp

/-! ## Pass 2 pushes exactly one decision per file -/

theorem filePath_eq_file_path (d : PlacementDecision) : d.filePath = d.file.path := by
  cases d <;> rfl

theorem makeDecision_file (f : FileInfo) (cur ideal : Tier) (s : Strategy) :
    (makeDecision f cur ideal s).file = f := by
  rw [makeDecision]
  by_cases h1 : cur.name = ideal.name
  · rw [if_pos h1]
    rfl
  · rw [if_neg h1]
    by_cases h2 : ideal.priority < cur.priority
    · rw [if_pos h2]
      rfl
    · rw [if_neg h2]
      by_cases h3 : cur.canDemote = true
      · rw [if_pos h3]
        rfl
      · rw [if_neg h3]
        rfl

theorem planFilePlacement_decisions (tiers : List Tier)
    (strategies : List Strategy) (f : FileInfo) (cur : Tier)
    (st : PlanningState) :
    ∃ d, (planFilePlacement tiers strategies f cur st).decisions =
        st.decisions ++ [d] ∧ d.file = f := by
  rw [planFilePlacement]
  rcases hms : findMatchingStrategy strategies f cur.name with _ | s
  · exact ⟨_, rfl, rfl⟩
  · dsimp only
    by_cases hact : s.action = .stay
    · rw [if_pos hact]
      exact ⟨_, rfl, rfl⟩
    · rw [if_neg hact]
      rcases hit : findIdealTierSimulated tiers s f st.tierFreeSpace with _ | ideal
      · dsimp only
        by_cases hreq : s.isRequired = true
        · rw [if_pos hreq]
          rcases hhd : s.preferredTiers.head? with _ | firstPreferred
          · exact ⟨_, rfl, rfl⟩
          · dsimp only
            by_cases hfp : firstPreferred ≠ cur.name
            · rw [if_pos hfp]
              exact ⟨_, rfl, rfl⟩
            · rw [if_neg hfp]
              exact ⟨_, rfl, rfl⟩
        · rw [if_neg hreq]
          rcases hhd : s.preferredTiers.head? with _ | firstPreferred
          · exact ⟨_, rfl, rfl⟩
          · dsimp only
            by_cases hfp : firstPreferred ≠ cur.name
            · rw [if_pos hfp]
              exact ⟨_, rfl, rfl⟩
            · rw [if_neg hfp]
              exact ⟨_, rfl, rfl⟩
      · dsimp only
        by_cases hstay : (makeDecision f cur ideal s).isStay = true
        · rw [if_pos hstay]
          exact ⟨_, rfl, makeDecision_file f cur ideal s⟩
        · rw [if_neg hstay]
          exact ⟨_, rfl, makeDecision_file f cur ideal s⟩

theorem pass2Fold_paths (tiers : List Tier) (strategies : List Strategy) :
    ∀ (fl : List (FileInfo × Tier)) (st : PlanningState),
      ((fl.foldl (fun st ft => planFilePlacement tiers strategies ft.1 ft.2 st)
          st).decisions).map PlacementDecision.filePath =
        (st.decisions).map PlacementDecision.filePath ++
          fl.map (fun ft => ft.1.path) := by
  intro fl
  induction fl with
  | nil => intro st; simp
  | cons ft rest ih =>
    intro st
    rw [List.foldl_cons]
    rcases planFilePlacement_decisions tiers strategies ft.1 ft.2 st with ⟨d, hd, hf⟩
    rw [ih, hd]
    simp only [List.map_append, List.map_cons, List.map_nil, List.append_assoc,
      List.cons_append, List.nil_append]
    rw [filePath_eq_file_path, hf]

theorem planAllFiles_paths (tiers : List Tier) (strategies : List Strategy)
    (files : List (FileInfo × Tier)) :
    ((planAllFiles tiers strategies files).decisions).map
        PlacementDecision.filePath =
      (sortFilesDeterministically files).map (fun ft => ft.1.path) := by
  rw [planAllFiles]
  rw [pass2Fold_paths]
  rfl

theorem evictToMakeSpace_paths_full (tiers : List Tier)
    (ds : List PlacementDecision) (blocked : List BlockedPlacement)
    (fs : FreeSpace) :
    ((evictToMakeSpace tiers ds blocked fs).1).map PlacementDecision.filePath =
      ds.map PlacementDecision.filePath := by
  rw [evictToMakeSpace]
  by_cases hb : blocked.isEmpty = true
  · rw [if_pos hb]
  · rw [if_neg hb]
    exact evictToMakeSpace_paths tiers blocked (groupKeys blocked) ds fs

theorem evictExcessUsage_paths_full (tiers : List Tier)
    (ds : List PlacementDecision) (fs : FreeSpace) :
    ((evictExcessUsage tiers ds fs).1).map PlacementDecision.filePath =
      ds.map PlacementDecision.filePath :=
  evictExcessUsage_paths tiers tiers ds fs

theorem planRebalance_paths_perm (tiers : List Tier)
    (strategies : List Strategy) (files : List (FileInfo × Tier)) :
    List.Perm
      ((planRebalance tiers strategies files).map PlacementDecision.filePath)
      (files.map (fun ft => ft.1.path)) := by
  rw [planRebalance, planRebalanceCore]
  dsimp only
  have h2 := evictExcessUsage_paths_full tiers
    (if (planAllFiles tiers strategies files).blockedPlacements.isEmpty then
      ((planAllFiles tiers strategies files).decisions,
        (planAllFiles tiers strategies files).tierFreeSpace)
    else
      evictToMakeSpace tiers (planAllFiles tiers strategies files).decisions
        (planAllFiles tiers strategies files).blockedPlacements
        (planAllFiles tiers strategies files).tierFreeSpace).1
    (if (planAllFiles tiers strategies files).blockedPlacements.isEmpty then
      ((planAllFiles tiers strategies files).decisions,
        (planAllFiles tiers strategies files).tierFreeSpace)
    else
      evictToMakeSpace tiers (planAllFiles tiers strategies files).decisions
        (planAllFiles tiers strategies files).blockedPlacements
        (planAllFiles tiers strategies files).tierFreeSpace).2
  have h1 : ((if (planAllFiles tiers strategies files).blockedPlacements.isEmpty then
      ((planAllFiles tiers strategies files).decisions,
        (planAllFiles tiers strategies files).tierFreeSpace)
    else
      evictToMakeSpace tiers (planAllFiles tiers strategies files).decisions
        (planAllFiles tiers strategies files).blockedPlacements
        (planAllFiles tiers strategies files).tierFreeSpace).1).map
          PlacementDecision.filePath =
      ((planAllFiles tiers strategies files).decisions).map
        PlacementDecision.filePath := by
    by_cases hb : (planAllFiles tiers strategies files).blockedPlacements.isEmpty
    · rw [if_pos hb]
    · rw [if_neg hb]
      exact evictToMakeSpace_paths_full tiers _ _ _
  refine ((sortBy_perm decisionCmp _).map PlacementDecision.filePath).trans ?_
  rw [h2, h1, planAllFiles_paths]
  exact (sortBy_perm fileSortCmp files).map (fun ft => ft.1.path)

/-! ## Claim C1 — decision totality -/

/-- C1 (confirmed): every scanned file appears in exactly one decision of the
emitted plan. Pass 2 pushes exactly one decision per file, Passes 3a/3b only
rewrite decisions in place for the same file, and the final sort permutes:
the decision paths are a permutation of the scanned paths, so with distinct
scanned paths each file is named by exactly one decision. -/
theorem C1_decision_totality (tiers : List Tier) (strategies : List Strategy)
    (files : List (FileInfo × Tier))
    (hnd : (files.map (fun ft => ft.1.path)).Nodup) :
    List.Perm
      ((planRebalance tiers strategies files).map PlacementDecision.filePath)
      (files.map (fun ft => ft.1.path)) ∧
    ∀ ft ∈ files,
      ((planRebalance tiers strategies files).map
          PlacementDecision.filePath).count ft.1.path = 1 := by
  have hperm := planRebalance_paths_perm tiers strategies files
  refine ⟨hperm, fun ft hft => ?_⟩
  rw [hperm.count_eq]
  exact List.count_eq_one_of_mem hnd (List.mem_map_of_mem _ hft)

/-! ## Predicate preservation through the eviction passes

A property of decisions that holds for every Pass-2 decision and is closed
under the two rewrite shapes (fallback demotion of a Stay, replan of a
blocked file) holds for every decision of the final plan.
-/

theorem foldl_pred_preserve {σ ι : Type _} (P : σ → Prop) (f : σ → ι → σ)
    (hstep : ∀ st x, P st → P (f st x)) :
    ∀ (l : List ι) (st : σ), P st → P (l.foldl f st) := by
  intro l
  induction l with
  | nil => intro st h; exact h
  | cons x xs ih =>
    intro st h
    rw [List.foldl_cons]
    exact ih _ (hstep st x h)

theorem applyEvictions_pres (tiers : List Tier)
    (Pd : PlacementDecision → Prop) (hcl : FallbackClosed tiers Pd)
    (idxs : List Nat) (ds : List PlacementDecision) (fs : FreeSpace)
    (h : ∀ d ∈ ds, Pd d) :
    ∀ d ∈ (applyEvictions tiers idxs ds fs).1, Pd d := by
  rw [applyEvictions]
  refine foldl_pred_preserve (fun st => ∀ d ∈ st.1, Pd d) _ ?_ idxs.reverse
    (ds, fs) h
  intro st i hst
  obtain ⟨ds0, fs0⟩ := st
  dsimp only
  rcases hget : ds0.get? i with _ | d
  · exact hst
  · cases d with
    | stay f curT strat prio =>
      dsimp only
      rcases hfb : findFallbackTier tiers curT fs0 f.size with _ | fb
      · exact hst
      · intro d' hd'
        rcases List.mem_or_eq_of_mem_set hd' with hmem | heq
        · exact hst d' hmem
        · rw [heq]
          exact hcl f curT strat prio fb fs0 hfb (hst _ (mem_of_get? _ _ _ hget))
    | promote f fr t2 strat prio => exact hst
    | demote f fr t2 strat prio => exact hst

theorem replanBlockedFiles_pres (tiers : List Tier)
    (Pd : PlacementDecision → Prop) (Q : BlockedPlacement → Prop)
    (hcl : ReplanClosed tiers Pd Q)
    (bs : List BlockedPlacement) (ds : List PlacementDecision) (fs : FreeSpace)
    (h : ∀ d ∈ ds, Pd d) (hq : ∀ b ∈ bs, Q b) :
    ∀ d ∈ (replanBlockedFiles tiers bs ds fs).1, Pd d := by
  rw [replanBlockedFiles]
  induction bs generalizing ds fs with
  | nil => exact h
  | cons b rest ih =>
    rw [List.foldl_cons]
    have hqb : Q b := hq b (List.mem_cons_self _ _)
    have hqr : ∀ b' ∈ rest, Q b' := fun b' hb' => hq b' (List.mem_cons_of_mem _ hb')
    dsimp only
    rcases hdt : findTier tiers b.desiredTier with _ | target
    · rcases hct : findTier tiers b.currentTier with _ | cur
      · exact ih ds fs h hqr
      · exact ih ds fs h hqr
    · rcases hct : findTier tiers b.currentTier with _ | cur
      · exact ih ds fs h hqr
      · dsimp only
        by_cases hacc : fsAccepts fs target b.file.size = true
        · rw [if_pos (by simpa using hacc)]
          split
          · rename_i idx hidx
            refine ih _ _ ?_ hqr
            intro d' hd'
            rcases List.mem_or_eq_of_mem_set hd' with hmem | heq
            · exact h d' hmem
            · rw [heq]
              exact hcl b target cur hqb hdt hct
          · exact ih ds fs h hqr
        · rw [if_neg (by simpa using hacc)]
          exact ih ds fs h hqr

theorem evictLoopB_pres (tiers : List Tier) (tierName : String)
    (total targetUsed : Nat) (Pd : PlacementDecision → Prop)
    (hcl : FallbackClosed tiers Pd) :
    ∀ (cands : List (Nat × Nat × Nat)) (ds : List PlacementDecision)
      (fs : FreeSpace), (∀ d ∈ ds, Pd d) →
      ∀ d ∈ (evictLoopB tiers tierName total targetUsed cands ds fs).1, Pd d := by
  intro cands
  induction cands with
  | nil => intro ds fs h; exact h
  | cons c rest ih =>
    intro ds fs h
    rcases c with ⟨idx, p, sz⟩
    rw [evictLoopB]
    by_cases hstop : total - (fsGet? fs tierName).getD 0 ≤ targetUsed
    · rw [if_pos hstop]
      exact h
    · rw [if_neg hstop]
      rcases hget : ds.get? idx with _ | d
      · exact ih ds fs h
      · cases d with
        | stay f curT strat prio =>
          dsimp only
          rcases hfb : findFallbackTier tiers curT fs f.size with _ | fb
          · exact ih ds fs h
          · refine ih _ _ ?_
            intro d' hd'
            rcases List.mem_or_eq_of_mem_set hd' with hmem | heq
            · exact h d' hmem
            · rw [heq]
              exact hcl f curT strat prio fb fs hfb (h _ (mem_of_get? _ _ _ hget))
        | promote f fr t2 strat prio => exact ih ds fs h
        | demote f fr t2 strat prio => exact ih ds fs h

theorem evictToTargetUsage_pres (tiers : List Tier) (tierName : String)
    (targetPercent : Nat) (Pd : PlacementDecision → Prop)
    (hcl : FallbackClosed tiers Pd) (ds : List PlacementDecision)
    (fs : FreeSpace) (h : ∀ d ∈ ds, Pd d) :
    ∀ d ∈ (evictToTargetUsage tiers tierName targetPercent ds fs).1, Pd d := by
  rw [evictToTargetUsage]
  rcases ht : findTier tiers tierName with _ | t
  · exact h
  · exact evictLoopB_pres tiers tierName _ _ Pd hcl _ ds fs h

theorem evictExcessUsage_pres (tiers : List Tier)
    (Pd : PlacementDecision → Prop) (hcl : FallbackClosed tiers Pd)
    (ds : List PlacementDecision) (fs : FreeSpace) (h : ∀ d ∈ ds, Pd d) :
    ∀ d ∈ (evictExcessUsage tiers ds fs).1, Pd d := by
  rw [evictExcessUsage]
  refine foldl_pred_preserve (fun st => ∀ d ∈ st.1, Pd d) _ ?_ tiers (ds, fs) h
  intro st t hst
  obtain ⟨ds0, fs0⟩ := st
  dsimp only
  rcases hmp : t.maxUsagePercent with _ | maxP
  · exact hst
  · dsimp only
    by_cases hover : maxP <
        (if 0 < t.totalSpace then
          pctOf (t.totalSpace - (fsGet? fs0 t.name).getD 0) t.totalSpace
        else 0)
    · rw [if_pos hover]
      exact evictToTargetUsage_pres tiers t.name maxP Pd hcl ds0 fs0 hst
    · rw [if_neg hover]
      exact hst

theorem evictFromTier_pres (tiers : List Tier) (tierName : String)
    (Pd : PlacementDecision → Prop) (Q : BlockedPlacement → Prop)
    (hcl : FallbackClosed tiers Pd) (hcl2 : ReplanClosed tiers Pd Q)
    (blockedList : List BlockedPlacement) (ds : List PlacementDecision)
    (fs : FreeSpace) (h : ∀ d ∈ ds, Pd d) (hq : ∀ b ∈ blockedList, Q b) :
    ∀ d ∈ (evictFromTier tiers tierName blockedList ds fs).1, Pd d := by
  rw [evictFromTier]
  rcases happ : applyEvictions tiers
      (selectFilesToEvict (findEvictionCandidates tierName ds)
        (calculateNeededSpace (sortBy blockedCmp blockedList))
        (sortBy blockedCmp blockedList)) ds fs with ⟨ds', fs'⟩
  have h1 := applyEvictions_pres tiers Pd hcl
    (selectFilesToEvict (findEvictionCandidates tierName ds)
      (calculateNeededSpace (sortBy blockedCmp blockedList))
      (sortBy blockedCmp blockedList)) ds fs h
  rw [happ] at h1
  have hqs : ∀ b ∈ sortBy blockedCmp blockedList, Q b := fun b hb =>
    hq b ((sortBy_perm blockedCmp blockedList).mem_iff.mp hb)
  exact replanBlockedFiles_pres tiers Pd Q hcl2 _ ds' fs' h1 hqs

theorem evictToMakeSpace_pres (tiers : List Tier)
    (Pd : PlacementDecision → Prop) (Q : BlockedPlacement → Prop)
    (hcl : FallbackClosed tiers Pd) (hcl2 : ReplanClosed tiers Pd Q)
    (ds : List PlacementDecision) (blocked : List BlockedPlacement)
    (fs : FreeSpace) (h : ∀ d ∈ ds, Pd d) (hq : ∀ b ∈ blocked, Q b) :
    ∀ d ∈ (evictToMakeSpace tiers ds blocked fs).1, Pd d := by
  rw [evictToMakeSpace]
  by_cases hb : blocked.isEmpty = true
  · rw [if_pos hb]
    exact h
  · rw [if_neg hb]
    refine foldl_pred_preserve (fun st => ∀ d ∈ st.1, Pd d) _ ?_
      (groupKeys blocked) (ds, fs) h
    intro st k hst
    obtain ⟨ds0, fs0⟩ := st
    have hqg : ∀ b ∈ groupOf blocked k, Q b := fun b hbm =>
      hq b (List.mem_filter.mp hbm).1
    exact evictFromTier_pres tiers k Pd Q hcl hcl2 (groupOf blocked k) ds0 fs0
      hst hqg

theorem findTier_name_mem (tiers : List Tier) (n : String) (t : Tier)
    (h : findTier tiers n = some t) : t.name = n ∧ t ∈ tiers := by
  rw [findTier] at h
  have h1 := List.find?_some h
  have h2 := List.mem_of_find?_eq_some h
  exact ⟨by simpa using h1, h2⟩

theorem findTier_of_mem_nodup (tiers : List Tier) (t : Tier)
    (hmem : t ∈ tiers) (hnd : (tiers.map (fun t => t.name)).Nodup) :
    findTier tiers t.name = some t := by
  induction tiers with
  | nil => exact absurd hmem (by simp)
  | cons x rest ih =>
    rw [findTier, List.find?]
    rcases List.mem_cons.mp hmem with heq | hmem'
    · rw [heq]
      simp
    · by_cases hx : x.name == t.name
      · exfalso
        have hx' : x.name = t.name := by simpa using hx
        have hnotin : x.name ∉ rest.map (fun t => t.name) :=
          (List.nodup_cons.mp (by simpa using hnd)).1
        exact hnotin (hx' ▸ List.mem_map_of_mem _ hmem')
      · simp only [Bool.not_eq_true] at hx
        rw [hx]
        exact ih hmem' (List.nodup_cons.mp (by simpa using hnd)).2

theorem findIdealTierSimulated_found (tiers : List Tier) (s : Strategy)
    (f : FileInfo) (fs : FreeSpace) (t : Tier)
    (h : findIdealTierSimulated tiers s f fs = some t) :
    findTier tiers t.name = some t := by
  rw [findIdealTierSimulated] at h
  have hmem := List.mem_of_find?_eq_some h
  rcases List.mem_filterMap.mp hmem with ⟨nm, _, hfind⟩
  rcases findTier_name_mem tiers nm t hfind with ⟨hname, _⟩
  rw [hname]
  exact hfind

theorem makeDecision_c3 (tiers : List Tier) (f : FileInfo) (cur ideal : Tier)
    (s : Strategy) (hnd : (tiers.map (fun t => t.name)).Nodup)
    (hcur : cur ∈ tiers) (hideal : findTier tiers ideal.name = some ideal) :
    C3Pred tiers (makeDecision f cur ideal s) := by
  have hcurF : findTier tiers cur.name = some cur :=
    findTier_of_mem_nodup tiers cur hcur hnd
  rw [makeDecision]
  by_cases h1 : cur.name = ideal.name
  · rw [if_pos h1]
    exact ⟨trivial, fun _ => trivial⟩
  · rw [if_neg h1]
    by_cases h2 : ideal.priority < cur.priority
    · rw [if_pos h2]
      exact ⟨⟨cur, ideal, hcurF, hideal, h2⟩,
        fun _ => ⟨cur, ideal, hcurF, hideal, h2⟩⟩
    · rw [if_neg h2]
      have hle : cur.priority ≤ ideal.priority := by omega
      by_cases h3 : cur.canDemote = true
      · rw [if_pos h3]
        refine ⟨⟨cur, ideal, hcurF, hideal, hle⟩, fun hinj => ?_⟩
        refine ⟨cur, ideal, hcurF, hideal, ?_⟩
        rcases Nat.lt_or_ge cur.priority ideal.priority with hlt | hge
        · exact hlt
        · exfalso
          have heq : cur.priority = ideal.priority := by omega
          have : cur = ideal :=
            hinj cur hcur ideal (findTier_name_mem _ _ _ hideal).2 heq
          exact h1 (by rw [this])
      · rw [if_neg h3]
        exact ⟨trivial, fun _ => trivial⟩

theorem planFilePlacement_c3 (tiers : List Tier) (strategies : List Strategy)
    (f : FileInfo) (cur : Tier) (st : PlanningState)
    (hnd : (tiers.map (fun t => t.name)).Nodup) (hcur : cur ∈ tiers)
    (hds : ∀ d ∈ st.decisions, C3Pred tiers d)
    (hbs : ∀ b ∈ st.blockedPlacements, BlockedNe b) :
    (∀ d ∈ (planFilePlacement tiers strategies f cur st).decisions,
        C3Pred tiers d) ∧
      (∀ b ∈ (planFilePlacement tiers strategies f cur st).blockedPlacements,
        BlockedNe b) := by
  rw [planFilePlacement]
  rcases hms : findMatchingStrategy strategies f cur.name with _ | s
  · refine ⟨fun d hd => ?_, hbs⟩
    rcases List.mem_append.mp hd with hd | hd
    · exact hds d hd
    · rw [List.mem_singleton.mp hd]
      exact ⟨trivial, fun _ => trivial⟩
  · dsimp only
    by_cases hact : s.action = .stay
    · rw [if_pos hact]
      refine ⟨fun d hd => ?_, hbs⟩
      rcases List.mem_append.mp hd with hd | hd
      · exact hds d hd
      · rw [List.mem_singleton.mp hd]
        exact ⟨trivial, fun _ => trivial⟩
    · rw [if_neg hact]
      rcases hit : findIdealTierSimulated tiers s f st.tierFreeSpace with _ | ideal
      · dsimp only
        have hstep : ∀ (st1 : PlanningState),
            (∀ d ∈ st1.decisions, C3Pred tiers d) →
            (∀ b ∈ st1.blockedPlacements, BlockedNe b) →
            (∀ d ∈ (st1.decisions ++
                [PlacementDecision.stay f cur.name s.name s.priority]),
              C3Pred tiers d) := by
          intro st1 h1 _ d hd
          rcases List.mem_append.mp hd with hd | hd
          · exact h1 d hd
          · rw [List.mem_singleton.mp hd]
            exact ⟨trivial, fun _ => trivial⟩
        have hblocked : ∀ b ∈
            (match s.preferredTiers.head? with
             | some firstPreferred =>
               if firstPreferred ≠ cur.name then
                 ({ st with
                    blockedPlacements :=
                      st.blockedPlacements ++
                        [({ file := f
                            currentTier := cur.name
                            desiredTier := firstPreferred
                            strategyName := s.name
                            strategyPriority := s.priority } : BlockedPlacement)] } :
                   PlanningState)
               else st
             | none => st).blockedPlacements, BlockedNe b := by
          rcases hhd : s.preferredTiers.head? with _ | firstPreferred
          · exact hbs
          · dsimp only
            by_cases hfp : firstPreferred ≠ cur.name
            · rw [if_pos hfp]
              intro b hb
              rcases List.mem_append.mp hb with hb | hb
              · exact hbs b hb
              · rw [List.mem_singleton.mp hb]
                exact hfp
            · rw [if_neg hfp]
              exact hbs
        have hdec : ∀ d ∈
            (match s.preferredTiers.head? with
             | some firstPreferred =>
               if firstPreferred ≠ cur.name then
                 ({ st with
                    blockedPlacements :=
                      st.blockedPlacements ++
                        [({ file := f
                            currentTier := cur.name
                            desiredTier := firstPreferred
                            strategyName := s.name
                            strategyPriority := s.priority } : BlockedPlacement)] } :
                   PlanningState)
               else st
             | none => st).decisions, C3Pred tiers d := by
          rcases hhd : s.preferredTiers.head? with _ | firstPreferred
          · exact hds
          · dsimp only
            by_cases hfp : firstPreferred ≠ cur.name
            · rw [if_pos hfp]
              exact hds
            · rw [if_neg hfp]
              exact hds
        by_cases hreq : s.isRequired = true
        · rw [if_pos hreq]
          exact ⟨hstep _ hdec hblocked, hblocked⟩
        · rw [if_neg hreq]
          exact ⟨hstep _ hdec hblocked, hblocked⟩
      · dsimp only
        have hgood := makeDecision_c3 tiers f cur ideal s hnd hcur
          (findIdealTierSimulated_found tiers s f st.tierFreeSpace ideal hit)
        by_cases hstay : (makeDecision f cur ideal s).isStay = true
        · rw [if_pos hstay]
          refine ⟨fun d hd => ?_, hbs⟩
          rcases List.mem_append.mp hd with hd | hd
          · exact hds d hd
          · rw [List.mem_singleton.mp hd]
            exact hgood
        · rw [if_neg hstay]
          refine ⟨fun d hd => ?_, hbs⟩
          rcases List.mem_append.mp hd with hd | hd
          · exact hds d hd
          · rw [List.mem_singleton.mp hd]
            exact hgood

theorem pass2Fold_c3 (tiers : List Tier) (strategies : List Strategy)
    (hnd : (tiers.map (fun t => t.name)).Nodup) :
    ∀ (fl : List (FileInfo × Tier)) (st : PlanningState),
      (∀ ft ∈ fl, ft.2 ∈ tiers) →
      (∀ d ∈ st.decisions, C3Pred tiers d) →
      (∀ b ∈ st.blockedPlacements, BlockedNe b) →
      ((∀ d ∈ (fl.foldl
            (fun st ft => planFilePlacement tiers strategies ft.1 ft.2 st)
            st).decisions, C3Pred tiers d) ∧
        (∀ b ∈ (fl.foldl
            (fun st ft => planFilePlacement tiers strategies ft.1 ft.2 st)
            st).blockedPlacements, BlockedNe b)) := by
  intro fl
  induction fl with
  | nil => intro st _ h1 h2; exact ⟨h1, h2⟩
  | cons ft rest ih =>
    intro st hmem h1 h2
    rw [List.foldl_cons]
    have hstep := planFilePlacement_c3 tiers strategies ft.1 ft.2 st hnd
      (hmem ft (List.mem_cons_self _ _)) h1 h2
    exact ih _ (fun ft' hft' => hmem ft' (List.mem_cons_of_mem _ hft'))
      hstep.1 hstep.2

theorem planAllFiles_c3 (tiers : List Tier) (strategies : List Strategy)
    (files : List (FileInfo × Tier))
    (hnd : (tiers.map (fun t => t.name)).Nodup)
    (hmem : ∀ ft ∈ files, ft.2 ∈ tiers) :
    (∀ d ∈ (planAllFiles tiers strategies files).decisions, C3Pred tiers d) ∧
      (∀ b ∈ (planAllFiles tiers strategies files).blockedPlacements,
        BlockedNe b) := by
  rw [planAllFiles]
  refine pass2Fold_c3 tiers strategies hnd _ _ ?_ (by simp [PlanningState.init])
    (by simp [PlanningState.init])
  intro ft hft
  exact hmem ft ((sortBy_perm fileSortCmp files).mem_iff.mp hft)

theorem c3_fallbackClosed (tiers : List Tier)
    (hnd : (tiers.map (fun t => t.name)).Nodup) :
    FallbackClosed tiers (C3Pred tiers) := by
  intro f curT strat prio t fs hfb _
  rcases findFallbackTier_sound tiers curT fs f.size t hfb with
    ⟨htmem, ⟨curT', hcur, hlt, _⟩, _⟩
  have htF : findTier tiers t.name = some t :=
    findTier_of_mem_nodup tiers t htmem hnd
  exact ⟨⟨curT', t, hcur, htF, Nat.le_of_lt hlt⟩,
    fun _ => ⟨curT', t, hcur, htF, hlt⟩⟩

theorem c3_replanClosed (tiers : List Tier) :
    ReplanClosed tiers (C3Pred tiers) BlockedNe := by
  intro b target cur hq hdt hct
  by_cases hpr : target.priority < cur.priority
  · rw [if_pos hpr]
    exact ⟨⟨cur, target, hct, hdt, hpr⟩, fun _ => ⟨cur, target, hct, hdt, hpr⟩⟩
  · rw [if_neg hpr]
    have hle : cur.priority ≤ target.priority := by omega
    refine ⟨⟨cur, target, hct, hdt, hle⟩, fun hinj => ⟨cur, target, hct, hdt, ?_⟩⟩
    rcases Nat.lt_or_ge cur.priority target.priority with hlt | hge
    · exact hlt
    · exfalso
      have heq : cur.priority = target.priority := by omega
      have hct2 : cur = target :=
        hinj cur (findTier_name_mem _ _ _ hct).2 target
          (findTier_name_mem _ _ _ hdt).2 heq
      have h1 := (findTier_name_mem _ _ _ hct).1
      have h2 := (findTier_name_mem _ _ _ hdt).1
      exact hq (by rw [← h2, ← h1, hct2])

/-- Membership preservation through the whole pipeline: a decision predicate
that holds after Pass 2 and is closed under both rewrite shapes holds for
every decision of the emitted plan. -/
theorem planRebalance_mem_pres (tiers : List Tier)
    (strategies : List Strategy) (files : List (FileInfo × Tier))
    (Pd : PlacementDecision → Prop) (Q : BlockedPlacement → Prop)
    (hcl : FallbackClosed tiers Pd) (hcl2 : ReplanClosed tiers Pd Q)
    (hpass : ∀ d ∈ (planAllFiles tiers strategies files).decisions, Pd d)
    (hq : ∀ b ∈ (planAllFiles tiers strategies files).blockedPlacements, Q b) :
    ∀ d ∈ planRebalance tiers strategies files, Pd d := by
  rw [planRebalance, planRebalanceCore]
  dsimp only
  have h1 : ∀ d ∈
      (if (planAllFiles tiers strategies files).blockedPlacements.isEmpty then
        ((planAllFiles tiers strategies files).decisions,
          (planAllFiles tiers strategies files).tierFreeSpace)
      else
        evictToMakeSpace tiers (planAllFiles tiers strategies files).decisions
          (planAllFiles tiers strategies files).blockedPlacements
          (planAllFiles tiers strategies files).tierFreeSpace).1, Pd d := by
    by_cases hb : (planAllFiles tiers strategies files).blockedPlacements.isEmpty
    · rw [if_pos hb]
      exact hpass
    · rw [if_neg hb]
      exact evictToMakeSpace_pres tiers Pd Q hcl hcl2 _ _ _ hpass hq
  have h2 := evictExcessUsage_pres tiers Pd hcl
    (if (planAllFiles tiers strategies files).blockedPlacements.isEmpty then
      ((planAllFiles tiers strategies files).decisions,
        (planAllFiles tiers strategies files).tierFreeSpace)
    else
      evictToMakeSpace tiers (planAllFiles tiers strategies files).decisions
        (planAllFiles tiers strategies files).blockedPlacements
        (planAllFiles tiers strategies files).tierFreeSpace).1
    (if (planAllFiles tiers strategies files).blockedPlacements.isEmpty then
      ((planAllFiles tiers strategies files).decisions,
        (planAllFiles tiers strategies files).tierFreeSpace)
    else
      evictToMakeSpace tiers (planAllFiles tiers strategies files).decisions
        (planAllFiles tiers strategies files).blockedPlacements
        (planAllFiles tiers strategies files).tierFreeSpace).2
    h1
  intro d hd
  exact h2 d ((sortBy_perm decisionCmp _).subset hd)

/-- C3 counterexample: two tiers with equal priority 1. The plan demotes the
file from `"a"` to `"b"`, and the Demote's destination priority equals — is
not strictly greater than — the source priority: `make_decision` takes the
Demote branch whenever the ideal tier is not strictly faster, including
priority ties. -/
theorem C3_counterexample :
    planRebalance [tierEqA, tierEqB] [strategyToB] [(fileOnA, tierEqA)] =
      [.demote fileOnA "a" "b" "s" 5] ∧
      (findTier [tierEqA, tierEqB] "a").map (fun t => t.priority) = some 1 ∧
      (findTier [tierEqA, tierEqB] "b").map (fun t => t.priority) = some 1 := by
  refine ⟨by decide, by decide, by decide⟩

/-- C3 (amended): in every emitted plan, every Promote strictly decreases the
tier priority number; every Demote does not decrease it, and strictly
increases it whenever tier priorities are pairwise distinct — equality is
possible only between two distinct tiers sharing a priority number. -/
theorem C3_tier_priority_consistency (tiers : List Tier)
    (strategies : List Strategy) (files : List (FileInfo × Tier))
    (hnd : (tiers.map (fun t => t.name)).Nodup)
    (hmem : ∀ ft ∈ files, ft.2 ∈ tiers) :
    ∀ d ∈ planRebalance tiers strategies files,
      TierOrderOk tiers d ∧ (PrioInj tiers → TierOrderStrict tiers d) := by
  have hpass := planAllFiles_c3 tiers strategies files hnd hmem
  exact planRebalance_mem_pres tiers strategies files (C3Pred tiers) BlockedNe
    (c3_fallbackClosed tiers hnd) (c3_replanClosed tiers) hpass.1 hpass.2

/-- C3 witness: the consistency theorem applied at the equal-priority
fixture plan; its single Demote satisfies the non-strict tier order. -/
theorem C3_witness :
    TierOrderOk [tierEqA, tierEqB]
      (.demote fileOnA "a" "b" "s" 5) :=
  (C3_tier_priority_consistency [tierEqA, tierEqB] [strategyToB]
    [(fileOnA, tierEqA)] (by decide)
    (by intro ft hft; rw [List.mem_singleton.mp hft]; decide)
    (.demote fileOnA "a" "b" "s" 5) (by decide)).1

/-- C1 witness: the totality theorem applied at the fixture plan — the single
scanned path appears in exactly one decision. -/
theorem C1_witness :
    ((planRebalance [tierEqA, tierEqB] [strategyToB]
        [(fileOnA, tierEqA)]).map PlacementDecision.filePath).count "/a/f" = 1 :=
  (C1_decision_totality [tierEqA, tierEqB] [strategyToB] [(fileOnA, tierEqA)]
    (by decide)).2 (fileOnA, tierEqA) (by decide)

/-! ## Claim C8 — final plan ordering -/

theorem decisionCmp_pre : CmpPre decisionCmp :=
  keyed_pre (prodCmp (cmpRev natCmp) strCmp)
    (prodCmp_laws _ _ (cmpRev_laws _ natCmp_laws) strCmp_laws)
    (fun d : PlacementDecision => (d.sortPriority, d.filePath))

theorem findMatchingStrategy_mem (strategies : List Strategy) (f : FileInfo)
    (n : String) (s : Strategy)
    (h : findMatchingStrategy strategies f n = some s) : s ∈ strategies := by
  rw [findMatchingStrategy, maxByLast] at h
  rcases maxByLast_mem strategyCmp _ none s h with hm | hm
  · exact List.mem_of_mem_filter hm
  · exact absurd hm (by simp)

theorem makeDecision_prio (f : FileInfo) (cur ideal : Tier) (s : Strategy) :
    (makeDecision f cur ideal s).strategyPriority = s.priority := by
  rw [makeDecision]
  by_cases h1 : cur.name = ideal.name
  · rw [if_pos h1]; rfl
  · rw [if_neg h1]
    by_cases h2 : ideal.priority < cur.priority
    · rw [if_pos h2]; rfl
    · rw [if_neg h2]
      by_cases h3 : cur.canDemote = true
      · rw [if_pos h3]; rfl
      · rw [if_neg h3]; rfl

/-- Every decision pushed by Pass 2 carries either a matching strategy's
priority or 0 (the no-match `Stay`); under a global strategy-priority bound
the decisions and blocked placements stay below the bound. -/
theorem planFilePlacement_bound (tiers : List Tier)
    (strategies : List Strategy) (f : FileInfo) (cur : Tier)
    (st : PlanningState)
    (hstrat : ∀ s ∈ strategies, s.priority < 1000)
    (hds : ∀ d ∈ st.decisions, d.strategyPriority < 1000)
    (hbs : ∀ b ∈ st.blockedPlacements, b.strategyPriority < 1000) :
    (∀ d ∈ (planFilePlacement tiers strategies f cur st).decisions,
        d.strategyPriority < 1000) ∧
      (∀ b ∈ (planFilePlacement tiers strategies f cur st).blockedPlacements,
        b.strategyPriority < 1000) := by
  rw [planFilePlacement]
  rcases hms : findMatchingStrategy strategies f cur.name with _ | s
  · refine ⟨fun d hd => ?_, hbs⟩
    rcases List.mem_append.mp hd with hd | hd
    · exact hds d hd
    · rw [List.mem_singleton.mp hd]
      show (0 : Nat) < 1000
      decide
  · have hsp : s.priority < 1000 :=
      hstrat s (findMatchingStrategy_mem strategies f cur.name s hms)
    dsimp only
    by_cases hact : s.action = .stay
    · rw [if_pos hact]
      refine ⟨fun d hd => ?_, hbs⟩
      rcases List.mem_append.mp hd with hd | hd
      · exact hds d hd
      · rw [List.mem_singleton.mp hd]
        exact hsp
    · rw [if_neg hact]
      rcases hit : findIdealTierSimulated tiers s f st.tierFreeSpace with _ | ideal
      · dsimp only
        have hblocked : ∀ b ∈
            (match s.preferredTiers.head? with
             | some firstPreferred =>
               if firstPreferred ≠ cur.name then
                 ({ st with
                    blockedPlacements :=
                      st.blockedPlacements ++
                        [({ file := f
                            currentTier := cur.name
                            desiredTier := firstPreferred
                            strategyName := s.name
                            strategyPriority := s.priority } : BlockedPlacement)] } :
                   PlanningState)
               else st
             | none => st).blockedPlacements, b.strategyPriority < 1000 := by
          rcases hhd : s.preferredTiers.head? with _ | firstPreferred
          · exact hbs
          · dsimp only
            by_cases hfp : firstPreferred ≠ cur.name
            · rw [if_pos hfp]
              intro b hb
              rcases List.mem_append.mp hb with hb | hb
              · exact hbs b hb
              · rw [List.mem_singleton.mp hb]
                exact hsp
            · rw [if_neg hfp]
              exact hbs
        have hdec : ∀ d ∈
            (match s.preferredTiers.head? with
             | some firstPreferred =>
               if firstPreferred ≠ cur.name then
                 ({ st with
                    blockedPlacements :=
                      st.blockedPlacements ++
                        [({ file := f
                            currentTier := cur.name
                            desiredTier := firstPreferred
                            strategyName := s.name
                            strategyPriority := s.priority } : BlockedPlacement)] } :
                   PlanningState)
               else st
             | none => st).decisions, d.strategyPriority < 1000 := by
          rcases hhd : s.preferredTiers.head? with _ | firstPreferred
          · exact hds
          · dsimp only
            by_cases hfp : firstPreferred ≠ cur.name
            · rw [if_pos hfp]
              exact hds
            · rw [if_neg hfp]
              exact hds
        have hstep : ∀ (st1 : PlanningState),
            (∀ d ∈ st1.decisions, d.strategyPriority < 1000) →
            (∀ d ∈ (st1.decisions ++
                [PlacementDecision.stay f cur.name s.name s.priority]),
              d.strategyPriority < 1000) := by
          intro st1 h1 d hd
          rcases List.mem_append.mp hd with hd | hd
          · exact h1 d hd
          · rw [List.mem_singleton.mp hd]
            exact hsp
        by_cases hreq : s.isRequired = true
        · rw [if_pos hreq]
          exact ⟨hstep _ hdec, hblocked⟩
        · rw [if_neg hreq]
          exact ⟨hstep _ hdec, hblocked⟩
      · dsimp only
        have hgood : (makeDecision f cur ideal s).strategyPriority < 1000 := by
          rw [makeDecision_prio]
          exact hsp
        by_cases hstay : (makeDecision f cur ideal s).isStay = true
        · rw [if_pos hstay]
          refine ⟨fun d hd => ?_, hbs⟩
          rcases List.mem_append.mp hd with hd | hd
          · exact hds d hd
          · rw [List.mem_singleton.mp hd]
            exact hgood
        · rw [if_neg hstay]
          refine ⟨fun d hd => ?_, hbs⟩
          rcases List.mem_append.mp hd with hd | hd
          · exact hds d hd
          · rw [List.mem_singleton.mp hd]
            exact hgood

theorem pass2Fold_bound (tiers : List Tier) (strategies : List Strategy)
    (hstrat : ∀ s ∈ strategies, s.priority < 1000) :
    ∀ (fl : List (FileInfo × Tier)) (st : PlanningState),
      (∀ d ∈ st.decisions, d.strategyPriority < 1000) →
      (∀ b ∈ st.blockedPlacements, b.strategyPriority < 1000) →
      ((∀ d ∈ (fl.foldl
            (fun st ft => planFilePlacement tiers strategies ft.1 ft.2 st)
            st).decisions, d.strategyPriority < 1000) ∧
        (∀ b ∈ (fl.foldl
            (fun st ft => planFilePlacement tiers strategies ft.1 ft.2 st)
            st).blockedPlacements, b.strategyPriority < 1000)) := by
  intro fl
  induction fl with
  | nil => intro st h1 h2; exact ⟨h1, h2⟩
  | cons ft rest ih =>
    intro st h1 h2
    rw [List.foldl_cons]
    have hstep := planFilePlacement_bound tiers strategies ft.1 ft.2 st
      hstrat h1 h2
    exact ih _ hstep.1 hstep.2

theorem planAllFiles_bound (tiers : List Tier) (strategies : List Strategy)
    (files : List (FileInfo × Tier))
    (hstrat : ∀ s ∈ strategies, s.priority < 1000) :
    (∀ d ∈ (planAllFiles tiers strategies files).decisions,
        d.strategyPriority < 1000) ∧
      (∀ b ∈ (planAllFiles tiers strategies files).blockedPlacements,
        b.strategyPriority < 1000) := by
  rw [planAllFiles]
  exact pass2Fold_bound tiers strategies hstrat _ _
    (by simp [PlanningState.init]) (by simp [PlanningState.init])

/-- The fallback rewrite turns a `Stay` into a `Demote` with the same
strategy priority, so any priority bound is preserved. -/
theorem bound_fallbackClosed (tiers : List Tier) :
    FallbackClosed tiers (fun d => d.strategyPriority < 1000) := by
  intro f curT strat prio t fs _ hp
  exact hp

/-- The replan rewrite reuses the blocked placement's strategy priority. -/
theorem bound_replanClosed (tiers : List Tier) :
    ReplanClosed tiers (fun d => d.strategyPriority < 1000)
      (fun b => b.strategyPriority < 1000) := by
  intro b target cur hq _ _
  by_cases h : target.priority < cur.priority
  · rw [if_pos h]; exact hq
  · rw [if_neg h]; exact hq

/-- C8 counterexample: with a strategy priority of 1500, the Promote's sort
priority (1500) exceeds the Demote's (1000 + 0), so the emitted plan lists
the Promote before the Demote — "every Demote precedes every Promote" fails.
-/
theorem C8_counterexample :
    planRebalance [tierFastC8, tierSlowC8] [strategyHot, strategyCold]
        [(fileHot, tierSlowC8), (fileCold, tierFastC8)] =
      [.promote fileHot "b" "a" "hot" 1500,
        .demote fileCold "a" "b" "cold" 0] := by
  decide

/-- C8 (amended): the emitted plan is always sorted by descending
`sort_priority` with ties broken by ascending path; the Demote-before-Promote
consequence additionally needs every strategy priority below 1000, since a
Promote's sort priority is the raw strategy priority while a Demote's is
1000 + priority. -/
theorem C8_final_ordering (tiers : List Tier) (strategies : List Strategy)
    (files : List (FileInfo × Tier))
    (hstrat : ∀ s ∈ strategies, s.priority < 1000) :
    List.Sorted (fun d1 d2 => decisionCmp d1 d2 ≠ .gt)
        (planRebalance tiers strategies files) ∧
      List.Pairwise
        (fun d1 d2 => ¬(d1.isPromote = true ∧ d2.isDemote = true))
        (planRebalance tiers strategies files) := by
  have hsorted : List.Sorted (fun d1 d2 => decisionCmp d1 d2 ≠ .gt)
      (planRebalance tiers strategies files) := by
    rw [planRebalance, planRebalanceCore]
    exact sortBy_sorted decisionCmp decisionCmp_pre _
  have hbound : ∀ d ∈ planRebalance tiers strategies files,
      d.strategyPriority < 1000 := by
    have hpass := planAllFiles_bound tiers strategies files hstrat
    exact planRebalance_mem_pres tiers strategies files
      (fun d => d.strategyPriority < 1000)
      (fun b => b.strategyPriority < 1000)
      (bound_fallbackClosed tiers) (bound_replanClosed tiers)
      hpass.1 hpass.2
  refine ⟨hsorted, List.Pairwise.imp_of_mem ?_ hsorted⟩
  intro d1 d2 h1 h2 hle hcon
  cases d1 with
  | stay _ _ _ _ => exact absurd hcon.1 (by simp [PlacementDecision.isPromote])
  | demote _ _ _ _ _ =>
    exact absurd hcon.1 (by simp [PlacementDecision.isPromote])
  | promote f1 fr1 t1 s1 p1 =>
    cases d2 with
    | stay _ _ _ _ => exact absurd hcon.2 (by simp [PlacementDecision.isDemote])
    | promote _ _ _ _ _ =>
      exact absurd hcon.2 (by simp [PlacementDecision.isDemote])
    | demote f2 fr2 t2 s2 p2 =>
      have hp1 : p1 < 1000 := hbound _ h1
      apply hle
      rw [decisionCmp]
      rw [then_eq_gt]
      left
      rw [natCmp]
      rw [if_neg (by simp [PlacementDecision.sortPriority]; omega),
        if_neg (by simp [PlacementDecision.sortPriority]; omega)]

/-- C8 witness: the ordering theorem applied at a two-decision plan with all
strategy priorities below 1000. -/
theorem C8_witness :
    List.Pairwise
      (fun d1 d2 => ¬(PlacementDecision.isPromote d1 = true ∧
        PlacementDecision.isDemote d2 = true))
      (planRebalance [tierEqA, tierEqB] [strategyToB] [(fileOnA, tierEqA)]) :=
  (C8_final_ordering [tierEqA, tierEqB] [strategyToB] [(fileOnA, tierEqA)]
    (by decide)).2

theorem stayBudget_append (n : String) (ds : List PlacementDecision)
    (d : PlacementDecision) :
    stayBudget n (ds ++ [d]) = stayBudget n ds + stayContrib n d := by
  simp [stayBudget]

theorem stayBudget_set (n : String) :
    ∀ (ds : List PlacementDecision) (i : Nat) (d' d0 : PlacementDecision),
      ds.get? i = some d0 →
      stayBudget n (ds.set i d') + stayContrib n d0 =
        stayBudget n ds + stayContrib n d' := by
  intro ds
  induction ds with
  | nil =>
    intro i d' d0 h
    exact absurd h (by simp)
  | cons x xs ih =>
    intro i d' d0 h
    cases i with
    | zero =>
      rw [List.get?_cons_zero] at h
      injection h with h
      subst h
      simp only [List.set, stayBudget, List.map_cons, List.sum_cons]
      omega
    | succ j =>
      rw [List.get?_cons_succ] at h
      have hrec := ih j d' d0 h
      simp only [List.set, stayBudget, List.map_cons, List.sum_cons] at hrec ⊢
      omega

theorem stayContrib_stay (n : String) (f : FileInfo) (curT strat : String)
    (prio : Nat) :
    stayContrib n (PlacementDecision.stay f curT strat prio) =
      if n = curT then f.size else 0 := by
  simp [stayContrib, PlacementDecision.isStay, PlacementDecision.currentTierOf,
    PlacementDecision.fileSize]

theorem stayContrib_demote (n : String) (f : FileInfo)
    (fr t2 strat : String) (prio : Nat) :
    stayContrib n (PlacementDecision.demote f fr t2 strat prio) = 0 := by
  simp [stayContrib, PlacementDecision.isStay]

/-- `make_decision` always records the planned file and current tier, so its
stay-budget contribution is at most the file's size on the current tier. -/
theorem makeDecision_contrib (n : String) (f : FileInfo) (cur ideal : Tier)
    (s : Strategy) :
    stayContrib n (makeDecision f cur ideal s) ≤
      if n = cur.name then f.size else 0 := by
  rw [makeDecision]
  by_cases h1 : cur.name = ideal.name
  · rw [if_pos h1, stayContrib_stay]
  · rw [if_neg h1]
    by_cases h2 : ideal.priority < cur.priority
    · rw [if_pos h2]
      simp [stayContrib, PlacementDecision.isStay]
    · rw [if_neg h2]
      by_cases h3 : cur.canDemote = true
      · rw [if_pos h3, stayContrib_demote]
        exact Nat.zero_le _
      · rw [if_neg h3, stayContrib_stay]

/-- One Pass-2 step: the new free-space entry plus the new stay budget is
bounded by the old ones plus the processed file's size on its current tier
(the file either stays — growing the budget — or moves — growing the
source's simulated free by at most its size). -/
theorem planFilePlacement_fsb (tiers : List Tier) (strategies : List Strategy)
    (f : FileInfo) (cur : Tier) (st : PlanningState) (t : Tier) (v' : Nat) :
    fsGet? (planFilePlacement tiers strategies f cur st).tierFreeSpace t.name =
      some v' →
    ∃ v, fsGet? st.tierFreeSpace t.name = some v ∧
      v' + stayBudget t.name
          (planFilePlacement tiers strategies f cur st).decisions ≤
        v + stayBudget t.name st.decisions +
          (if t.name = cur.name then f.size else 0) := by
  rw [planFilePlacement]
  rcases hms : findMatchingStrategy strategies f cur.name with _ | s
  · dsimp only
    intro h
    refine ⟨v', h, ?_⟩
    rw [stayBudget_append, stayContrib_stay]
    omega
  · dsimp only
    by_cases hact : s.action = .stay
    · rw [if_pos hact]
      dsimp only
      intro h
      refine ⟨v', h, ?_⟩
      rw [stayBudget_append, stayContrib_stay]
      omega
    · rw [if_neg hact]
      rcases hit : findIdealTierSimulated tiers s f st.tierFreeSpace with _ | ideal
      · dsimp only
        rcases hhd : s.preferredTiers.head? with _ | fp
        · dsimp only
          by_cases hreq : s.isRequired = true
          · rw [if_pos hreq]
            dsimp only
            intro h
            refine ⟨v', h, ?_⟩
            rw [stayBudget_append, stayContrib_stay]
            omega
          · rw [if_neg hreq]
            dsimp only
            intro h
            refine ⟨v', h, ?_⟩
            rw [stayBudget_append, stayContrib_stay]
            omega
        · dsimp only
          by_cases hfp : fp ≠ cur.name
          · rw [if_pos hfp]
            dsimp only
            by_cases hreq : s.isRequired = true
            · rw [if_pos hreq]
              dsimp only
              intro h
              refine ⟨v', h, ?_⟩
              rw [stayBudget_append, stayContrib_stay]
              omega
            · rw [if_neg hreq]
              dsimp only
              intro h
              refine ⟨v', h, ?_⟩
              rw [stayBudget_append, stayContrib_stay]
              omega
          · rw [if_neg hfp]
            by_cases hreq : s.isRequired = true
            · rw [if_pos hreq]
              dsimp only
              intro h
              refine ⟨v', h, ?_⟩
              rw [stayBudget_append, stayContrib_stay]
              omega
            · rw [if_neg hreq]
              dsimp only
              intro h
              refine ⟨v', h, ?_⟩
              rw [stayBudget_append, stayContrib_stay]
              omega
      · dsimp only
        by_cases hstay : (makeDecision f cur ideal s).isStay = true
        · rw [if_pos hstay]
          intro h
          refine ⟨v', h, ?_⟩
          rw [stayBudget_append]
          have hc := makeDecision_contrib t.name f cur ideal s
          omega
        · rw [if_neg hstay]
          dsimp only
          intro h
          obtain ⟨v, hv, hle⟩ :=
            fsGet?_applyMove_le st.tierFreeSpace f.size cur.name ideal.name
              t.name v' h
          refine ⟨v, hv, ?_⟩
          rw [stayBudget_append]
          have hc0 : stayContrib t.name (makeDecision f cur ideal s) = 0 := by
            rw [stayContrib, if_neg]
            intro hcon
            exact hstay hcon.1
          omega

theorem pass2Fold_fsb (tiers : List Tier) (strategies : List Strategy) :
    ∀ (fl : List (FileInfo × Tier)) (st : PlanningState),
      (∀ t ∈ tiers, ∀ v, fsGet? st.tierFreeSpace t.name = some v →
        v + stayBudget t.name st.decisions + sumSizes t.name fl ≤
          t.totalSpace) →
      ∀ t ∈ tiers, ∀ v,
        fsGet? (fl.foldl
            (fun st ft => planFilePlacement tiers strategies ft.1 ft.2 st)
            st).tierFreeSpace t.name = some v →
        v + stayBudget t.name (fl.foldl
            (fun st ft => planFilePlacement tiers strategies ft.1 ft.2 st)
            st).decisions ≤ t.totalSpace := by
  intro fl
  induction fl with
  | nil =>
    intro st h t ht v hv
    simp only [List.foldl_nil] at hv ⊢
    have hbase := h t ht v hv
    have hz : sumSizes t.name [] = 0 := rfl
    omega
  | cons ft rest ih =>
    intro st h
    rw [List.foldl_cons]
    refine ih _ ?_
    intro t ht v hv
    obtain ⟨v0, hv0, hle⟩ :=
      planFilePlacement_fsb tiers strategies ft.1 ft.2 st t v hv
    have hbase := h t ht v0 hv0
    have hsum : sumSizes t.name (ft :: rest) =
        (if t.name = ft.2.name then ft.1.size else 0) +
          sumSizes t.name rest := by
      simp [sumSizes]
    omega

/-- Pass 2 establishes the accounting invariant from a consistent seed. -/
theorem planAllFiles_fsb (tiers : List Tier) (strategies : List Strategy)
    (files : List (FileInfo × Tier))
    (hnd : (tiers.map (fun t => t.name)).Nodup)
    (hseed : ∀ t ∈ tiers, t.freeSpace + sumSizes t.name files ≤ t.totalSpace) :
    FsBudgetInv tiers (planAllFiles tiers strategies files).decisions
      (planAllFiles tiers strategies files).tierFreeSpace := by
  intro t ht v hv
  rw [planAllFiles] at hv ⊢
  refine pass2Fold_fsb tiers strategies _ _ ?_ t ht v hv
  intro t' ht' v' hv'
  have hfs : fsGet? (initFreeSpace tiers) t'.name = some v' := hv'
  rw [fsGet?_initFreeSpace, findTier_of_mem_nodup tiers t' ht' hnd,
    Option.map_some'] at hfs
  injection hfs with hfs
  subst hfs
  have hb : stayBudget t'.name (PlanningState.init tiers).decisions = 0 := rfl
  have hper : sumSizes t'.name (sortFilesDeterministically files) =
      sumSizes t'.name files := by
    rw [sumSizes, sumSizes]
    exact List.Perm.sum_eq
      (List.Perm.map _ (sortBy_perm fileSortCmp files))
  have hbase := hseed t' ht'
  omega

/-- The single eviction rewrite (Stay → Demote to the fallback, plus the
simulated move) preserves the accounting invariant: the source's free grows
by at most the file's size while its stay budget shrinks by exactly it. -/
theorem evictRewrite_fsb (tiers : List Tier) (ds : List PlacementDecision)
    (fs : FreeSpace) (i : Nat) (f : FileInfo) (curT strat : String)
    (prio : Nat) (fb : Tier)
    (hget : ds.get? i = some (.stay f curT strat prio))
    (h : FsBudgetInv tiers ds fs) :
    FsBudgetInv tiers (ds.set i (.demote f curT fb.name strat prio))
      (applyMove fs f.size curT fb.name) := by
  intro t ht v' hv'
  obtain ⟨v, hv, hle⟩ :=
    fsGet?_applyMove_le fs f.size curT fb.name t.name v' hv'
  have hbase := h t ht v hv
  have hset := stayBudget_set t.name ds i
    (.demote f curT fb.name strat prio) _ hget
  have hcS := stayContrib_stay t.name f curT strat prio
  have hcD := stayContrib_demote t.name f curT fb.name strat prio
  omega

theorem evictLoopB_fsb (tiers : List Tier) (tn : String)
    (total targetUsed : Nat) :
    ∀ (cands : List (Nat × Nat × Nat)) (ds : List PlacementDecision)
      (fs : FreeSpace),
      FsBudgetInv tiers ds fs →
      FsBudgetInv tiers
        (evictLoopB tiers tn total targetUsed cands ds fs).1
        (evictLoopB tiers tn total targetUsed cands ds fs).2 := by
  intro cands
  induction cands with
  | nil => intro ds fs h; exact h
  | cons c rest ih =>
    intro ds fs h
    obtain ⟨idx, p, sz⟩ := c
    rw [evictLoopB]
    by_cases hstop : total - (fsGet? fs tn).getD 0 ≤ targetUsed
    · rw [if_pos hstop]
      exact h
    · rw [if_neg hstop]
      rcases hget : ds.get? idx with _ | d
      · exact ih ds fs h
      · cases d with
        | stay f curT strat prio =>
          dsimp only
          rcases hfb : findFallbackTier tiers curT fs f.size with _ | fb
          · exact ih ds fs h
          · exact ih _ _
              (evictRewrite_fsb tiers ds fs idx f curT strat prio fb hget h)
        | promote f fr t2 strat prio => exact ih ds fs h
        | demote f fr t2 strat prio => exact ih ds fs h

theorem evictToTargetUsage_fsb (tiers : List Tier) (tn : String)
    (targetPercent : Nat) (ds : List PlacementDecision) (fs : FreeSpace)
    (h : FsBudgetInv tiers ds fs) :
    FsBudgetInv tiers (evictToTargetUsage tiers tn targetPercent ds fs).1
      (evictToTargetUsage tiers tn targetPercent ds fs).2 := by
  rw [evictToTargetUsage]
  rcases hft : findTier tiers tn with _ | t
  · exact h
  · exact evictLoopB_fsb tiers tn t.totalSpace
      (t.totalSpace * targetPercent / 100) _ ds fs h

/-- Pass 3b preserves the accounting invariant. -/
theorem evictExcessUsage_fsb (tiers : List Tier)
    (ds : List PlacementDecision) (fs : FreeSpace)
    (h : FsBudgetInv tiers ds fs) :
    FsBudgetInv tiers (evictExcessUsage tiers ds fs).1
      (evictExcessUsage tiers ds fs).2 := by
  rw [evictExcessUsage]
  refine foldl_pred_preserve (fun st => FsBudgetInv tiers st.1 st.2) _ ?_
    tiers (ds, fs) h
  intro st t hst
  obtain ⟨ds0, fs0⟩ := st
  dsimp only
  rcases hmp : t.maxUsagePercent with _ | maxPercent
  · exact hst
  · dsimp only
    by_cases hover : maxPercent <
        (if 0 < t.totalSpace then
          pctOf (t.totalSpace - (fsGet? fs0 t.name).getD 0) t.totalSpace
        else 0)
    · rw [if_pos hover]
      exact evictToTargetUsage_fsb tiers t.name maxPercent ds0 fs0 hst
    · rw [if_neg hover]
      exact hst

/-- C10 counterexample: moving the 200-byte file off tier `"a"` (total 100,
seeded free 50) leaves the uncapped simulated free at 250 > 100, so the
claimed invariant fails on a planner-reachable table. -/
theorem C10_counterexample :
    fsGet? (planRebalanceCore [tierOverA, tierOverB] [strategyOver]
        [(fileOver, tierOverA)]).2 "a" = some 250 ∧
      tierOverA.totalSpace < 250 := ⟨by decide, by decide⟩

/-- C10 (amended): when the seeded data is consistent — each tier's live
free space plus the bytes of the scanned files residing on it fits in its
total space — and Pass 2 leaves no blocked placement (so Pass 3a does not
run), every entry of the final simulated free-space table is at most the
tier's total space. Without the consistency hypothesis the invariant fails,
because `apply_move` adds a moved file's size to the source tier's free
without capping at the total. -/
theorem C10_simulated_free_bound (tiers : List Tier)
    (strategies : List Strategy) (files : List (FileInfo × Tier))
    (hnd : (tiers.map (fun t => t.name)).Nodup)
    (hseed : ∀ t ∈ tiers, t.freeSpace + sumSizes t.name files ≤ t.totalSpace)
    (hblocked :
      (planAllFiles tiers strategies files).blockedPlacements.isEmpty = true) :
    ∀ t ∈ tiers, ∀ v,
      fsGet? (planRebalanceCore tiers strategies files).2 t.name = some v →
      v ≤ t.totalSpace := by
  intro t ht v hv
  rw [planRebalanceCore] at hv
  dsimp only at hv
  rw [if_pos hblocked] at hv
  have hpass := planAllFiles_fsb tiers strategies files hnd hseed
  have h3b := evictExcessUsage_fsb tiers
    (planAllFiles tiers strategies files).decisions
    (planAllFiles tiers strategies files).tierFreeSpace hpass
  have hfin := h3b t ht v hv
  omega

/-- C10 witness: the bound theorem applied at a consistent seed (900 free +
100 bytes resident ≤ 1000 total); the final simulated free of `"a"` is
exactly 1000 after the move, within the total. -/
theorem C10_witness :
    ((([tierConsA, tierConsB].map (fun t => t.name)).Nodup ∧
      (∀ t ∈ [tierConsA, tierConsB],
        t.freeSpace + sumSizes t.name [(fileCons, tierConsA)] ≤
          t.totalSpace) ∧
      (planAllFiles [tierConsA, tierConsB] [strategyCons]
        [(fileCons, tierConsA)]).blockedPlacements.isEmpty = true)) ∧
    1000 ≤ tierConsA.totalSpace :=
  ⟨⟨by decide, by decide, by decide⟩,
    C10_simulated_free_bound [tierConsA, tierConsB] [strategyCons]
      [(fileCons, tierConsA)] (by decide) (by decide) (by decide)
      tierConsA (by decide) 1000 (by decide)⟩

theorem finalStage_err (env : MoveEnv) (hsrc : Nat) (s : FsState)
    (e : MoveError) (s' : FsState)
    (h : finalStage env hsrc s = (some e, s')) :
    s'.srcSize = s.srcSize ∧ s'.srcMtime = s.srcMtime ∧
    (e ≠ .destinationDisappeared → s'.srcExists = s.srcExists) ∧
    (e = .destinationDisappeared → s'.srcExists = false) ∧
    ((e = .sizeMismatch ∨ e = .checksumMismatch ∨ e = .sourceChanged ∨
        e = .finalChecksumMismatch) → s'.tmpExists = false) := by
  unfold finalStage at h
  repeat' split at h
  all_goals (
    simp only [Prod.mk.injEq] at h
    obtain ⟨he, hs⟩ := h
    first
    | exact Option.noConfusion he
    | (injection he with he
       subst he
       subst hs
       refine ⟨rfl, rfl, ?_, ?_, ?_⟩ <;> intro hx <;>
         first
           | rfl
           | (exact absurd rfl hx)
           | (rcases hx with hx | hx | hx | hx <;> cases hx)))

theorem hashStage_err (env : MoveEnv) (s : FsState) (e : MoveError)
    (s' : FsState) (h : hashStage env s = (some e, s')) :
    s'.srcSize = s.srcSize ∧ s'.srcMtime = s.srcMtime ∧
    (e ≠ .destinationDisappeared → s'.srcExists = s.srcExists) ∧
    (e = .destinationDisappeared → s'.srcExists = false) ∧
    ((e = .sizeMismatch ∨ e = .checksumMismatch ∨ e = .sourceChanged ∨
        e = .finalChecksumMismatch) → s'.tmpExists = false) := by
  unfold hashStage at h
  repeat' split at h
  all_goals (first
    | exact finalStage_err _ _ _ _ _ h
    | (simp only [Prod.mk.injEq] at h
       obtain ⟨he, hs⟩ := h
       first
       | exact Option.noConfusion he
       | (injection he with he
          subst he
          subst hs
          refine ⟨rfl, rfl, ?_, ?_, ?_⟩ <;> intro hx <;>
            first
              | rfl
              | (exact absurd rfl hx)
              | (rcases hx with hx | hx | hx | hx <;> cases hx))))

theorem copyStage_err (env : MoveEnv) (s : FsState) (e : MoveError)
    (s' : FsState) (h : copyStage env s = (some e, s')) :
    s'.srcSize = s.srcSize ∧ s'.srcMtime = s.srcMtime ∧
    (e ≠ .destinationDisappeared → s'.srcExists = s.srcExists) ∧
    (e = .destinationDisappeared → s'.srcExists = false) ∧
    ((e = .sizeMismatch ∨ e = .checksumMismatch ∨ e = .sourceChanged ∨
        e = .finalChecksumMismatch) → s'.tmpExists = false) := by
  unfold copyStage at h
  repeat' split at h
  all_goals (first
    | (have hres := hashStage_err _ _ _ _ h
       exact hres)
    | (simp only [Prod.mk.injEq] at h
       obtain ⟨he, hs⟩ := h
       first
       | exact Option.noConfusion he
       | (injection he with he
          subst he
          subst hs
          refine ⟨rfl, rfl, ?_, ?_, ?_⟩ <;> intro hx <;>
            first
              | rfl
              | (exact absurd rfl hx)
              | (rcases hx with hx | hx | hx | hx <;> cases hx))))

/-- C2 counterexample: (a) when rsync exits non-zero having created the
staging file, the error is surfaced without unlinking it — the `.partial`
sibling remains (the same gap exists on the post-copy metadata/hash-error
and rename-failure paths); (b) on the Step-10 destination-disappeared error
the source has already been removed, so it does not survive the failed
call. -/
theorem C2_counterexample :
    moveFile envRsyncFail s0C2 =
      (some .rsyncExitFailure, { s0C2 with tmpExists := true }) ∧
      moveFile envDstGone s0C2 =
        (some .destinationDisappeared,
          { s0C2 with
              tmpExists := false
              dstExists := true
              srcExists := false }) :=
  ⟨by decide, by decide⟩

/-- C2 (amended): on every error path the mover never alters the source's
size or mtime; the source file survives every error except the Step-10
destination-disappeared error, where it has already been removed; and the
staging `.partial` sibling is unlinked before the error is surfaced on the
four explicit verification-failure branches (size mismatch, checksum
mismatch, source changed during copy, final checksum mismatch) — but not on
the rsync-failure, post-copy metadata/hash-error, or rename-failure paths.
-/
theorem C2_failure_atomicity (env : MoveEnv) (s : FsState) (e : MoveError)
    (s' : FsState) (h : moveFile env s = (some e, s')) :
    s'.srcSize = s.srcSize ∧ s'.srcMtime = s.srcMtime ∧
    (e ≠ .destinationDisappeared → s'.srcExists = s.srcExists) ∧
    (e = .destinationDisappeared → s'.srcExists = false) ∧
    ((e = .sizeMismatch ∨ e = .checksumMismatch ∨ e = .sourceChanged ∨
        e = .finalChecksumMismatch) → s'.tmpExists = false) := by
  unfold moveFile at h
  repeat' split at h
  all_goals (first
    | (have hres := copyStage_err _ _ _ _ h
       exact hres)
    | (simp only [Prod.mk.injEq] at h
       obtain ⟨he, hs⟩ := h
       first
       | exact Option.noConfusion he
       | (injection he with he
          subst he
          subst hs
          refine ⟨rfl, rfl, ?_, ?_, ?_⟩ <;> intro hx <;>
            first
              | rfl
              | (exact absurd rfl hx)
              | (rcases hx with hx | hx | hx | hx <;> cases hx))))

/-- C2 witness: the atomicity theorem applied at the checksum-mismatch run —
the source survives untouched and the staging file is gone. -/
theorem C2_witness :
    moveFile envMismatch s0C2 =
      (some .checksumMismatch, { s0C2 with tmpExists := false }) ∧
      ({ s0C2 with tmpExists := false } : FsState).srcExists =
        s0C2.srcExists ∧
      ({ s0C2 with tmpExists := false } : FsState).tmpExists = false :=
  ⟨by decide,
    (C2_failure_atomicity envMismatch s0C2 .checksumMismatch
        { s0C2 with tmpExists := false } (by decide)).2.2.1 (by decide),
    (C2_failure_atomicity envMismatch s0C2 .checksumMismatch
        { s0C2 with tmpExists := false } (by decide)).2.2.2.2
      (Or.inr (Or.inl rfl))⟩

end Tierflow
